import Mathlib

/-!
Verification development for the hexon dependency-injection core
(packages/hexon-py/hexon/core/container.py).

The Python module is embedded shallowly:

* Python classes decorated as ports / adapters / services are modelled by
  `ElemClass` records held in a `World`; class objects are referred to by
  their index (`Nat`) into `World.elems`, container classes by their index
  into `World.containers`.  `issubclass` is modelled by an explicit
  `ancestors` list (every class lists itself among its ancestors).
* Python objects are mutable and shared by reference, so `_Resolution`
  objects live on an explicit heap (`St.heap : List Resolution`) and are
  referred to by index; instances created by calling a class live on
  `St.insts`.  A container's `_resolutions` dict is an insertion-ordered
  association list mapping token to heap index, mirroring Python dict
  semantics (update keeps position, fresh keys append).
* The process-wide singleton `_Cache` is the `cache` component of the
  threaded state `St`.
* Exceptions are modelled by `Except Err`; the unguarded recursion through
  imports is given fuel, with exhaustion standing for Python's
  RecursionError.  All functions return the final state alongside the
  result so that side effects performed before a raise stay observable,
  exactly as in Python.
* Logger calls have no semantic effect and are dropped (noted where the
  source has them).
-/

/-- Error codes of the container module (container.py line 26). -/
inductive ErrCode
  | NOT_FOUND
  | INVALID_ELEMENT
deriving DecidableEq, Inhabited

/-- Exceptions raised by the container module: `ContainerError` with a code
(container.py lines 30-38), plus the builtin exception kinds the module
raises (`AttributeError`, `KeyError`, `TypeError`) and Python's
RecursionError standing for unbounded import recursion. -/
inductive Err
  | containerError (msg : String) (code : ErrCode)
  | attributeError (msg : String)
  | keyError (msg : String)
  | typeError (msg : String)
  | recursionError
deriving DecidableEq, Inhabited

/-- Role of a resolution: the `type` field of `_Resolution`
(container.py line 80), one of the strings "provider" / "export". -/
inductive RType
  | provider
  | exported
deriving DecidableEq, Inhabited

/-- Boolean test for the "provider" role (used by the `providers` view). -/
def RType.isProv : RType → Bool
  | .provider => true
  | .exported => false

/-- Boolean test for the "export" role (used by the `exports` view). -/
def RType.isExp : RType → Bool
  | .provider => false
  | .exported => true

/-- The `_Resolution` dataclass (container.py lines 72-84): token, role,
built instance (a reference into the instance heap), descriptive dependency
strings, optional origin container name, and the cache-hit flag. -/
structure Resolution where
  token : String
  type : RType
  inst : Nat
  deps : List String
  origin : Option String
  fromCache : Bool
deriving DecidableEq, Inhabited

/-- An element class as the resolution engine sees it: `__name__`,
`__token__`, the ancestor classes witnessing `issubclass`, and the
annotated constructor parameters of `__init__` (the `return` slot of
`get_type_hints` already excluded, container.py lines 302-307).
Parameters are (name, annotated class id) pairs; a class whose constructor
has no required parameters has `ctorParams = []`. -/
structure ElemClass where
  name : String
  token : String
  ancestors : List Nat
  ctorParams : List (String × Nat)
deriving DecidableEq, Inhabited

/-- A container class: `__name__`, `__token__` (the `Container` decorator
sets the token to the class name, container.py line 584), and the
`_Config` lists (container.py lines 98-112). -/
structure ContainerClass where
  name : String
  token : String
  providers : List Nat
  exports : List Nat
  imports : List Nat
  reExport : Bool
deriving DecidableEq, Inhabited

/-- A constructed `_Container` object: its class data together with the
built `_resolutions` map (token to resolution-heap index, in dict
insertion order). -/
structure ContainerObj where
  name : String
  token : String
  providersL : List Nat
  exportsL : List Nat
  importsL : List Nat
  reExport : Bool
  resolutions : List (String × Nat)
deriving DecidableEq, Inhabited

/-- An instance created by calling a class: its class and the argument
instances passed to the constructor.  `_get` calls `provider()` with zero
arguments (container.py line 321); `_resolve` passes the resolved
dependencies (line 314). -/
structure InstObj where
  cls : Nat
  args : List Nat
deriving DecidableEq, Inhabited

/-- The static universe of declared classes. -/
structure World where
  elems : List ElemClass
  containers : List ContainerClass
deriving DecidableEq, Inhabited

/-- Class lookup by id (total, with a default for out-of-range ids). -/
def World.elemOf (w : World) (i : Nat) : ElemClass := (w.elems.get? i).getD default

/-- Container class lookup by id. -/
def World.containerOf (w : World) (i : Nat) : ContainerClass :=
  (w.containers.get? i).getD default

/-- Model of `issubclass(p, c)` between declared classes: membership of c
in the ancestor list of p (each class lists itself). -/
def issub (w : World) (p c : Nat) : Bool := (w.elemOf p).ancestors.contains c

/-- The mutable global state: the `_Cache` singleton's `_containers` dict
(container.py line 139, token to container, insertion ordered), the heap
of `_Resolution` objects, and the heap of created instances. -/
structure St where
  cache : List (String × ContainerObj)
  heap : List Resolution
  insts : List InstObj
deriving DecidableEq, Inhabited

/-- Python dict lookup on an association list. -/
def alookup {α : Type} (m : List (String × α)) (k : String) : Option α :=
  match m with
  | [] => none
  | (k1, v) :: rest => if k1 = k then some v else alookup rest k

/-- Python dict assignment: update in place keeps the key position, a fresh
key is appended at the end. -/
def dictSet {α : Type} (m : List (String × α)) (k : String) (v : α) :
    List (String × α) :=
  match m with
  | [] => [(k, v)]
  | (k1, v1) :: rest => if k1 = k then (k, v) :: rest else (k1, v1) :: dictSet rest k v

/-- Read a resolution from the heap (total). -/
def heapGet (h : List Resolution) (r : Nat) : Resolution := (h.get? r).getD default

/-- Overwrite a heap cell (a Python attribute assignment on the shared
`_Resolution` object). -/
def heapSet (h : List Resolution) (r : Nat) (v : Resolution) : List Resolution :=
  h.set r v

/-- The `providers` property of a container (container.py lines 345-353):
the sub-dict of resolutions whose role is "provider". -/
def providersView (heap : List Resolution) (m : List (String × Nat)) :
    List (String × Nat) :=
  m.filter (fun kv => ((heapGet heap kv.2).type).isProv)

/-- The `exports` property of a container (container.py lines 335-343):
the sub-dict of resolutions whose role is "export". -/
def exportsView (heap : List Resolution) (m : List (String × Nat)) :
    List (String × Nat) :=
  m.filter (fun kv => ((heapGet heap kv.2).type).isExp)

/-- The class lookup of an instance (`instance.__class__`). -/
def instClsOf (st : St) (r : Nat) : Nat := ((st.insts.get? r).getD default).cls

/-- Model of `_Cache.get_provider` (container.py lines 175-181): scan every
cached container in insertion order; if the requested token is a key of
that container's `providers` view, return the entry of its full
resolutions map under that token. -/
def getProviderAux (heap : List Resolution) (cache : List (String × ContainerObj))
    (t : String) : Option Nat :=
  match cache with
  | [] => none
  | (_, c) :: rest =>
    if ((providersView heap c.resolutions).map Prod.fst).contains t then
      alookup c.resolutions t
    else getProviderAux heap rest t

/-- The scan of `_Container._get` over `self._providers + self._exports`
(container.py lines 319-321): first declared class that satisfies
`issubclass(provider, cls)`. -/
def scanSub (w : World) (cls : Nat) : List Nat → Option Nat
  | [] => none
  | p :: rest => if issub w p cls then some p else scanSub w cls rest

/-- Model of `_Container._get` (container.py lines 316-327).  On an
ancestry match the matched class is instantiated directly with zero
constructor arguments (`provider()`); a class whose constructor has
required parameters makes that call raise TypeError.  Otherwise fall back
to the resolutions map by exact token and return the stored instance;
otherwise raise KeyError naming the requested class. -/
def containerGet (w : World) (provs exps : List Nat) (m : List (String × Nat))
    (cls : Nat) (st : St) : (Except Err Nat) × St :=
  match scanSub w cls (provs ++ exps) with
  | some p =>
    if (w.elemOf p).ctorParams = [] then
      (Except.ok st.insts.length, { st with insts := st.insts ++ [⟨p, []⟩] })
    else
      (Except.error (Err.typeError ((w.elemOf p).name ++ " missing required arguments")), st)
  | none =>
    match alookup m (w.elemOf cls).token with
    | some r => (Except.ok (heapGet st.heap r).inst, st)
    | none =>
      (Except.error (Err.keyError ("Provider with " ++ (w.elemOf cls).name ++ " not found")), st)

/-- The dependency loop of `_Container._resolve` (container.py lines
302-311): for each annotated constructor parameter, resolve it with `_get`,
record the descriptive string, and collect the argument. -/
def resolveDeps (w : World) (provs exps : List Nat) (m : List (String × Nat)) :
    List (String × Nat) → St → (Except Err (List String × List Nat)) × St
  | [], st => (Except.ok ([], []), st)
  | (pname, ptype) :: rest, st =>
    match containerGet w provs exps m ptype st with
    | (Except.error e, st1) => (Except.error e, st1)
    | (Except.ok dep, st1) =>
      let depName := (w.elemOf (instClsOf st1 dep)).name
      match resolveDeps w provs exps m rest st1 with
      | (Except.error e, st2) => (Except.error e, st2)
      | (Except.ok (deps, args), st2) =>
        (Except.ok (("<" ++ pname ++ ", " ++ depName ++ ">") :: deps, dep :: args), st2)

/-- Model of `_Container._resolve` (container.py lines 300-314): resolve
the constructor dependencies, then instantiate the class with the resolved
arguments; returns the new instance and the descriptive strings. -/
def containerResolve (w : World) (provs exps : List Nat) (m : List (String × Nat))
    (cls : Nat) (st : St) : (Except Err (Nat × List String)) × St :=
  match resolveDeps w provs exps m (w.elemOf cls).ctorParams st with
  | (Except.error e, st1) => (Except.error e, st1)
  | (Except.ok (deps, args), st1) =>
    (Except.ok (st1.insts.length, deps), { st1 with insts := st1.insts ++ [⟨cls, args⟩] })

/-- The provider/export loop of `_Container._make_resolution`
(container.py lines 272-295) over `self._providers + self._exports`.
A `get_provider` hit stores the shared resolution, marks it `from_cache`
and sets its role to "export" only when the class is in the local exports
list and `re_export` holds, else "provider"; a miss builds fresh with role
"provider" when the class is in the local providers list, else "export". -/
def resolveLoop (w : World) (provs exps : List Nat) (re : Bool) :
    List Nat → List (String × Nat) → St → (Except Err (List (String × Nat))) × St
  | [], m, st => (Except.ok m, st)
  | item :: rest, m, st =>
    let t := (w.elemOf item).token
    match getProviderAux st.heap st.cache t with
    | some r =>
      let h1 := heapSet st.heap r { heapGet st.heap r with fromCache := true }
      let ty := if exps.contains item && re then RType.exported else RType.provider
      let h2 := heapSet h1 r { heapGet h1 r with type := ty }
      resolveLoop w provs exps re rest (dictSet m t r) { st with heap := h2 }
    | none =>
      match containerResolve w provs exps m item st with
      | (Except.error e, st1) => (Except.error e, st1)
      | (Except.ok (instRef, deps), st1) =>
        let ty := if provs.contains item then RType.provider else RType.exported
        let res : Resolution := ⟨t, ty, instRef, deps, none, false⟩
        resolveLoop w provs exps re rest (dictSet m t st1.heap.length)
          { st1 with heap := st1.heap ++ [res] }

/-- Model of `_Container._make_resolution` (container.py lines 261-298).
If a container with this token is already cached, adopt its whole
resolutions map and stop; otherwise run the provider/export loop and, on
success only, register the finished container in the cache. -/
def makeResolution (w : World) (cc : ContainerClass) (m : List (String × Nat))
    (st : St) : (Except Err ContainerObj) × St :=
  match alookup st.cache cc.token with
  | some c =>
    (Except.ok ⟨cc.name, cc.token, cc.providers, cc.exports, cc.imports, cc.reExport,
      c.resolutions⟩, st)
  | none =>
    match resolveLoop w cc.providers cc.exports cc.reExport (cc.providers ++ cc.exports) m st with
    | (Except.error e, st1) => (Except.error e, st1)
    | (Except.ok m1, st1) =>
      let obj : ContainerObj :=
        ⟨cc.name, cc.token, cc.providers, cc.exports, cc.imports, cc.reExport, m1⟩
      (Except.ok obj, { st1 with cache := dictSet st1.cache cc.token obj })

/-- The re-export merge of `_Container._resolve_imports` (container.py
lines 248-259), for one imported container: iterate the snapshot of its
`exports` view; for each symbol, set `origin` on the shared resolution
object, store the same object in the local map, set `from_cache`, and set
the role to "provider".  The `re_export` flag only gates a diagnostic log
between the last two writes (lines 254-257) and has no semantic effect
here, so it does not appear. -/
def mergeExports (cname : String) :
    List (String × Nat) → List (String × Nat) → List Resolution →
    (List (String × Nat)) × List Resolution
  | [], m, heap => (m, heap)
  | (symbol, r) :: rest, m, heap =>
    let h1 := heapSet heap r { heapGet heap r with origin := some cname }
    let m1 := dictSet m symbol r
    let h2 := heapSet h1 r { heapGet h1 r with fromCache := true }
    let h3 := heapSet h2 r { heapGet h2 r with type := RType.provider }
    mergeExports cname rest m1 h3

/-- The import loop of `_Container._resolve_imports` (container.py lines
233-259), parameterised by the recursive constructor (applied at one fuel
less).  A cache miss constructs the imported container and registers it;
either way the merge of its exports runs. -/
def resolveImportsGo (w : World) (cstr : Nat → St → (Except Err ContainerObj) × St) :
    List Nat → List (String × Nat) → St → (Except Err (List (String × Nat))) × St
  | [], m, st => (Except.ok m, st)
  | ci :: rest, m, st =>
    let cc := w.containerOf ci
    match alookup st.cache cc.token with
    | some c =>
      let snap := exportsView st.heap c.resolutions
      let p := mergeExports c.name snap m st.heap
      resolveImportsGo w cstr rest p.1 { st with heap := p.2 }
    | none =>
      match cstr ci st with
      | (Except.error e, st1) => (Except.error e, st1)
      | (Except.ok c, st1) =>
        let st2 := { st1 with cache := dictSet st1.cache c.token c }
        let snap := exportsView st2.heap c.resolutions
        let p := mergeExports c.name snap m st2.heap
        resolveImportsGo w cstr rest p.1 { st2 with heap := p.2 }

/-- Model of `_Container.__init__` (container.py lines 204-225): start
from an empty resolutions map, resolve the imports, then run
`_make_resolution`.  Fuel bounds the unguarded recursion through imports;
exhaustion stands for Python's RecursionError. -/
def construct (w : World) : Nat → Nat → St → (Except Err ContainerObj) × St
  | 0, _, st => (Except.error Err.recursionError, st)
  | fuel + 1, ci, st =>
    let cc := w.containerOf ci
    match resolveImportsGo w (fun cj st2 => construct w fuel cj st2) cc.imports [] st with
    | (Except.error e, st1) => (Except.error e, st1)
    | (Except.ok m, st1) => makeResolution w cc m st1

/-- Presence of the three attributes `_Element.__init__` checks on the
instance under construction (container.py lines 48-55). -/
structure ElemAttrs where
  hasElement : Bool
  hasToken : Bool
  hasMeta : Bool
deriving DecidableEq, Inhabited

/-- Model of `_Element.__init__` (container.py lines 57-65): raise
`ContainerError` with code INVALID_ELEMENT if any of `__element__`,
`__token__`, `__meta__` is absent, in that order; otherwise do nothing. -/
def elementInit (a : ElemAttrs) : Except Err Unit :=
  if !a.hasElement then
    Except.error (Err.containerError "Property __element__ not found." ErrCode.INVALID_ELEMENT)
  else if !a.hasToken then
    Except.error (Err.containerError "Property __token__ not found" ErrCode.INVALID_ELEMENT)
  else if !a.hasMeta then
    Except.error (Err.containerError "Property __meta__ not found" ErrCode.INVALID_ELEMENT)
  else Except.ok ()

/-- Shape of an arbitrary Python value as `ContainerTools.is_element_or_raise`
inspects it: whether it is a class, and which of the dunder attributes it
carries. -/
structure PyVal where
  isClass : Bool
  hasMeta : Bool
  hasToken : Bool
  hasElement : Bool
deriving DecidableEq, Inhabited

/-- Model of `ContainerTools.is_element_or_raise` (container.py lines
379-395): raise AttributeError unless the value is a class carrying
`__meta__` and `__token__`; the `__element__` (kind) attribute is not
inspected. -/
def is_element_or_raise (x : PyVal) : Except Err Unit :=
  if !x.isClass then Except.error (Err.attributeError "The element must be a class.")
  else if !x.hasMeta then
    Except.error (Err.attributeError "The element must have a meta property.")
  else if !x.hasToken then
    Except.error (Err.attributeError "The element must have a token property.")
  else Except.ok ()

/-! ### A small concrete universe used to exercise the engine

Element classes: 0 = port P; 1 = adapter D implementing P (an adapter
carries its port token, container.py line 485); 2 = service S with no
constructor dependencies; 3 = service S2 depending on P; 4 = port Q with
no adapter; 5 = service Bad depending on the unsatisfiable Q.
Container classes: 0 = B exporting S; 1 = A importing B; 2, 3 = siblings
each providing the adapter D; 4 = F importing B and providing Bad (its own
resolution loop fails); 5 = G providing D and exporting S. -/

def W0 : World :=
  { elems :=
      [ ⟨"P", "P", [0], []⟩,
        ⟨"D", "P", [1, 0], []⟩,
        ⟨"S", "S", [2], []⟩,
        ⟨"S2", "S2", [3], [("p", 0)]⟩,
        ⟨"Q", "Q", [4], []⟩,
        ⟨"Bad", "Bad", [5], [("q", 4)]⟩ ],
    containers :=
      [ ⟨"B", "B", [], [2], [], false⟩,
        ⟨"A", "A", [], [], [0], false⟩,
        ⟨"Sib1", "Sib1", [1], [], [], false⟩,
        ⟨"Sib2", "Sib2", [1], [], [], false⟩,
        ⟨"F", "F", [5], [], [0], false⟩,
        ⟨"G", "G", [1], [2], [], false⟩ ] }

/-- The empty initial state (fresh process, cleared cache). -/
def st0 : St := ⟨[], [], []⟩

/-- The state after constructing container B on the fresh state. -/
def stB : St := (construct W0 9 0 st0).2

/-- The container object the construction of B produces. -/
def Bobj : ContainerObj := ⟨"B", "B", [], [2], [], false, [("S", 0)]⟩

/-- The container object the construction of A (importing B) produces. -/
def objA : ContainerObj := ⟨"A", "A", [], [], [0], false, [("S", 0)]⟩

/-- The state after additionally constructing A on top of B. -/
def stA : St := (construct W0 2 1 stB).2

/-- The container object the construction of sibling Sib1 produces. -/
def sib1Obj : ContainerObj := ⟨"Sib1", "Sib1", [1], [], [], false, [("P", 0)]⟩

/-- The state after constructing Sib1 on the fresh state. -/
def stSib1 : St := (construct W0 1 2 st0).2

/-- The local map produced by F's import-resolution phase (B's export S,
merged and promoted). -/
def mFImp : List (String × Nat) := [("S", 0)]

/-- The state after F's import-resolution phase: B cached, its resolution
for S mutated to provider/fromCache/origin B by the merge. -/
def stFImp : St :=
  ⟨[("B", Bobj)], [⟨"S", RType.provider, 0, [], some "B", true⟩], [⟨2, []⟩]⟩

/-- The container object the construction of G produces (one provider D,
one export S). -/
def objG : ContainerObj := ⟨"G", "G", [1], [2], [], false, [("P", 0), ("S", 1)]⟩

/-- The state after constructing G on the fresh state. -/
def stG : St := (construct W0 1 5 st0).2

/-- The container object the construction of sibling Sib2 produces. -/
def sib2Obj : ContainerObj := ⟨"Sib2", "Sib2", [1], [], [], false, [("P", 0)]⟩

/-- The state after constructing Sib2 on top of Sib1. -/
def stSib2 : St := (construct W0 1 3 stSib1).2

/-- Recogniser for a raised ContainerError with code INVALID_ELEMENT. -/
def isInvalidElement : Except Err Unit → Bool
  | Except.error (Err.containerError _ ErrCode.INVALID_ELEMENT) => true
  | _ => false

/-! ### Basic lemmas about the dict and heap primitives -/

theorem alookup_mem {α : Type} {m : List (String × α)} {k : String} {v : α}
    (h : alookup m k = some v) : (k, v) ∈ m := by
  induction m with
  | nil => simp [alookup] at h
  | cons kv rest ih =>
    obtain ⟨k1, v1⟩ := kv
    by_cases hk : k1 = k
    · subst hk
      simp [alookup] at h
      subst h
      exact List.mem_cons_self _ _
    · simp [alookup, hk] at h
      exact List.mem_cons_of_mem _ (ih h)

theorem alookup_dictSet_self {α : Type} (m : List (String × α)) (k : String) (v : α) :
    alookup (dictSet m k v) k = some v := by
  induction m with
  | nil => simp [dictSet, alookup]
  | cons kv rest ih =>
    obtain ⟨k1, v1⟩ := kv
    by_cases hk : k1 = k
    · subst hk; simp [dictSet, alookup]
    · simp [dictSet, alookup, hk, ih]

theorem alookup_dictSet_ne {α : Type} {k0 k : String} (hne : k0 ≠ k)
    (m : List (String × α)) (v : α) :
    alookup (dictSet m k v) k0 = alookup m k0 := by
  induction m with
  | nil => simp [dictSet, alookup, Ne.symm hne]
  | cons kv rest ih =>
    obtain ⟨k1, v1⟩ := kv
    by_cases hk : k1 = k
    · subst hk
      simp [dictSet, alookup, Ne.symm hne]
    · by_cases hk0 : k1 = k0
      · subst hk0; simp [dictSet, alookup, hk]
      · simp [dictSet, alookup, hk, hk0, ih]

theorem dictSet_not_mem {α : Type} {m : List (String × α)} {k : String}
    (h : k ∉ m.map Prod.fst) (v : α) : dictSet m k v = m ++ [(k, v)] := by
  induction m with
  | nil => simp [dictSet]
  | cons kv rest ih =>
    obtain ⟨k1, v1⟩ := kv
    simp only [List.map_cons, List.mem_cons] at h
    push_neg at h
    simp [dictSet, Ne.symm h.1, ih h.2]

theorem heapSet_oob {h : List Resolution} {r : Nat} (hr : h.length ≤ r)
    (v : Resolution) : heapSet h r v = h := by
  unfold heapSet
  induction h generalizing r with
  | nil => simp
  | cons a rest ih =>
    cases r with
    | zero => simp at hr
    | succ r1 =>
      simp only [List.length_cons, Nat.succ_le_succ_iff] at hr
      simp [List.set, ih hr]

theorem heapGet_set_self {h : List Resolution} {r : Nat} (hr : r < h.length)
    (v : Resolution) : heapGet (heapSet h r v) r = v := by
  unfold heapGet heapSet
  induction h generalizing r with
  | nil => simp at hr
  | cons a rest ih =>
    cases r with
    | zero => simp
    | succ r1 =>
      simp only [List.length_cons, Nat.succ_lt_succ_iff] at hr
      simpa using ih hr

theorem heapGet_set_ne {h : List Resolution} {r r1 : Nat} (hne : r1 ≠ r)
    (v : Resolution) : heapGet (heapSet h r v) r1 = heapGet h r1 := by
  unfold heapGet heapSet
  induction h generalizing r r1 with
  | nil => simp
  | cons a rest ih =>
    cases r with
    | zero =>
      cases r1 with
      | zero => exact absurd rfl hne
      | succ j => simp
    | succ r2 =>
      cases r1 with
      | zero => simp
      | succ j =>
        have : j ≠ r2 := fun e => hne (by simp [e])
        simpa using ih this

theorem heapSet_length (h : List Resolution) (r : Nat) (v : Resolution) :
    (heapSet h r v).length = h.length := by
  simp [heapSet]

theorem heapGet_append_lt {h : List Resolution} {r : Nat} (hr : r < h.length)
    (t : List Resolution) : heapGet (h ++ t) r = heapGet h r := by
  unfold heapGet
  rw [List.get?_append hr]

theorem heapGet_append_self (h : List Resolution) (v : Resolution) :
    heapGet (h ++ [v]) h.length = v := by
  unfold heapGet
  rw [List.get?_append_right (Nat.le_refl _)]
  simp

theorem heapGet_set_token {h : List Resolution} {r : Nat} {v : Resolution}
    (hv : v.token = (heapGet h r).token) (r1 : Nat) :
    (heapGet (heapSet h r v) r1).token = (heapGet h r1).token := by
  by_cases e : r1 = r
  · subst e
    by_cases hr : r1 < h.length
    · rw [heapGet_set_self hr]; exact hv
    · rw [heapSet_oob (Nat.le_of_not_lt hr)]
  · rw [heapGet_set_ne e]

theorem heapGet_set_inst {h : List Resolution} {r : Nat} {v : Resolution}
    (hv : v.inst = (heapGet h r).inst) (r1 : Nat) :
    (heapGet (heapSet h r v) r1).inst = (heapGet h r1).inst := by
  by_cases e : r1 = r
  · subst e
    by_cases hr : r1 < h.length
    · rw [heapGet_set_self hr]; exact hv
    · rw [heapSet_oob (Nat.le_of_not_lt hr)]
  · rw [heapGet_set_ne e]

/-! ### Well-formedness of states -/

/-- A resolutions map is well formed over a heap: its keys are distinct
(Python dict keys are), every entry points inside the heap, and the
pointed-to resolution carries the key as its token (the engine always
stores a resolution under its own token). -/
def MapWF (heap : List Resolution) (m : List (String × Nat)) : Prop :=
  (m.map Prod.fst).Nodup ∧ ∀ kv ∈ m, kv.2 < heap.length ∧ (heapGet heap kv.2).token = kv.1

/-- Every container registered in the cache has a well-formed resolutions
map over the heap. -/
def CacheWF (heap : List Resolution) (cache : List (String × ContainerObj)) : Prop :=
  ∀ p ∈ cache, MapWF heap p.2.resolutions

instance (heap : List Resolution) (m : List (String × Nat)) : Decidable (MapWF heap m) := by
  unfold MapWF; infer_instance

instance (heap : List Resolution) (cache : List (String × ContainerObj)) :
    Decidable (CacheWF heap cache) := by
  unfold CacheWF; infer_instance

/-! ### Frame lemmas: which parts of the state each operation leaves alone -/

theorem containerGet_frame (w : World) (provs exps : List Nat)
    (m : List (String × Nat)) (cls : Nat) (st : St) :
    (containerGet w provs exps m cls st).2.heap = st.heap ∧
    (containerGet w provs exps m cls st).2.cache = st.cache := by
  unfold containerGet
  cases scanSub w cls (provs ++ exps) with
  | some p =>
    by_cases hp : (w.elemOf p).ctorParams = [] <;> simp [hp]
  | none =>
    cases alookup m (w.elemOf cls).token with
    | some r => simp
    | none => simp

theorem resolveDeps_frame (w : World) (provs exps : List Nat)
    (m : List (String × Nat)) (params : List (String × Nat)) (st : St) :
    (resolveDeps w provs exps m params st).2.heap = st.heap ∧
    (resolveDeps w provs exps m params st).2.cache = st.cache := by
  induction params generalizing st with
  | nil => simp [resolveDeps]
  | cons pp rest ih =>
    obtain ⟨pname, ptype⟩ := pp
    unfold resolveDeps
    obtain ⟨hg1, hg2⟩ := containerGet_frame w provs exps m ptype st
    rcases hcg : containerGet w provs exps m ptype st with ⟨res, st1⟩
    rw [hcg] at hg1 hg2
    cases res with
    | error e => simpa using ⟨hg1, hg2⟩
    | ok dep =>
      obtain ⟨hr1, hr2⟩ := ih st1
      rcases hrd : resolveDeps w provs exps m rest st1 with ⟨res2, st2⟩
      rw [hrd] at hr1 hr2
      dsimp only
      rw [hrd]
      cases res2 with
      | error e => simpa using ⟨hr1.trans hg1, hr2.trans hg2⟩
      | ok pr =>
        obtain ⟨deps, args⟩ := pr
        simpa using ⟨hr1.trans hg1, hr2.trans hg2⟩

theorem containerResolve_frame (w : World) (provs exps : List Nat)
    (m : List (String × Nat)) (cls : Nat) (st : St) :
    (containerResolve w provs exps m cls st).2.heap = st.heap ∧
    (containerResolve w provs exps m cls st).2.cache = st.cache := by
  unfold containerResolve
  obtain ⟨h1, h2⟩ := resolveDeps_frame w provs exps m (w.elemOf cls).ctorParams st
  rcases hrd : resolveDeps w provs exps m (w.elemOf cls).ctorParams st with ⟨res, st1⟩
  rw [hrd] at h1 h2
  cases res with
  | error e => simpa using ⟨h1, h2⟩
  | ok pr =>
    obtain ⟨deps, args⟩ := pr
    simpa using ⟨h1, h2⟩

/-! ### Lemmas about the export merge -/

theorem heapSet_twice (h : List Resolution) (r : Nat) (v1 v2 : Resolution) :
    heapSet (heapSet h r v1) r v2 = heapSet h r v2 := by
  simp [heapSet, List.set_set]

/-- The three successive attribute writes of the merge collapse to one
heap write of the combined record. -/
theorem mergeExports_cons (cname s : String) (r : Nat) (rest m : List (String × Nat))
    (heap : List Resolution) :
    mergeExports cname ((s, r) :: rest) m heap =
      mergeExports cname rest (dictSet m s r)
        (heapSet heap r { heapGet heap r with
          origin := some cname
          fromCache := true
          type := RType.provider }) := by
  simp only [mergeExports]
  congr 1
  rw [heapSet_twice, heapSet_twice]
  by_cases hr : r < heap.length
  · have h1 : r < (heapSet heap r { heapGet heap r with origin := some cname }).length := by
      rw [heapSet_length]; exact hr
    rw [heapGet_set_self h1, heapGet_set_self hr]
  · have hle := Nat.le_of_not_lt hr
    rw [heapSet_oob hle, heapSet_oob hle]

theorem set_merge_token (h : List Resolution) (r r1 : Nat) (c : String) :
    (heapGet (heapSet h r { heapGet h r with
      origin := some c
      fromCache := true
      type := RType.provider }) r1).token = (heapGet h r1).token := by
  refine heapGet_set_token ?_ r1
  rfl

theorem set_merge_inst (h : List Resolution) (r r1 : Nat) (c : String) :
    (heapGet (heapSet h r { heapGet h r with
      origin := some c
      fromCache := true
      type := RType.provider }) r1).inst = (heapGet h r1).inst := by
  refine heapGet_set_inst ?_ r1
  rfl

theorem mergeExports_length (cname : String) (exps m : List (String × Nat))
    (heap : List Resolution) :
    (mergeExports cname exps m heap).2.length = heap.length := by
  induction exps generalizing m heap with
  | nil => simp [mergeExports]
  | cons kv rest ih =>
    obtain ⟨symbol, r⟩ := kv
    rw [mergeExports_cons, ih, heapSet_length]

theorem mergeExports_token (cname : String) (exps m : List (String × Nat))
    (heap : List Resolution) (r1 : Nat) :
    (heapGet (mergeExports cname exps m heap).2 r1).token = (heapGet heap r1).token := by
  induction exps generalizing m heap with
  | nil => simp [mergeExports]
  | cons kv rest ih =>
    obtain ⟨symbol, r⟩ := kv
    rw [mergeExports_cons, ih]
    exact set_merge_token heap r r1 cname

theorem mergeExports_inst (cname : String) (exps m : List (String × Nat))
    (heap : List Resolution) (r1 : Nat) :
    (heapGet (mergeExports cname exps m heap).2 r1).inst = (heapGet heap r1).inst := by
  induction exps generalizing m heap with
  | nil => simp [mergeExports]
  | cons kv rest ih =>
    obtain ⟨symbol, r⟩ := kv
    rw [mergeExports_cons, ih]
    exact set_merge_inst heap r r1 cname

theorem mergeExports_heap_frame (cname : String) {exps : List (String × Nat)}
    (m : List (String × Nat)) (heap : List Resolution) {r1 : Nat}
    (hfr : ∀ kv ∈ exps, kv.2 ≠ r1) :
    heapGet (mergeExports cname exps m heap).2 r1 = heapGet heap r1 := by
  induction exps generalizing m heap with
  | nil => simp [mergeExports]
  | cons kv rest ih =>
    obtain ⟨symbol, r⟩ := kv
    have hr : r ≠ r1 := hfr (symbol, r) (List.mem_cons_self _ _)
    rw [mergeExports_cons, ih _ _ (fun kv hkv => hfr kv (List.mem_cons_of_mem _ hkv))]
    exact heapGet_set_ne (Ne.symm hr) _

theorem mergeExports_map_frame (cname : String) {exps : List (String × Nat)}
    (m : List (String × Nat)) (heap : List Resolution) {s : String}
    (hfr : s ∉ exps.map Prod.fst) :
    alookup (mergeExports cname exps m heap).1 s = alookup m s := by
  induction exps generalizing m heap with
  | nil => simp [mergeExports]
  | cons kv rest ih =>
    obtain ⟨symbol, r⟩ := kv
    simp only [List.map_cons, List.mem_cons] at hfr
    push_neg at hfr
    rw [mergeExports_cons, ih _ _ hfr.2]
    exact alookup_dictSet_ne hfr.1 m r

theorem mergeExports_target (cname : String) {exps : List (String × Nat)}
    (m : List (String × Nat)) (heap : List Resolution) {s : String} {rS : Nat}
    (hmem : (s, rS) ∈ exps)
    (hnd : (exps.map Prod.fst).Nodup)
    (hok : ∀ kv ∈ exps, kv.2 < heap.length ∧ (heapGet heap kv.2).token = kv.1) :
    alookup (mergeExports cname exps m heap).1 s = some rS ∧
    heapGet (mergeExports cname exps m heap).2 rS =
      { heapGet heap rS with
        origin := some cname
        fromCache := true
        type := RType.provider } := by
  induction exps generalizing m heap with
  | nil => simp at hmem
  | cons kv rest ih =>
    obtain ⟨symbol, r⟩ := kv
    simp only [List.map_cons, List.nodup_cons] at hnd
    by_cases hs : symbol = s
    · subst hs
      have hrS : rS = r := by
        rcases List.mem_cons.mp hmem with h | h
        · exact (Prod.ext_iff.mp h).2
        · exact absurd (List.mem_map_of_mem Prod.fst h) hnd.1
      subst hrS
      have hb := (hok (symbol, rS) (List.mem_cons_self _ _)).1
      have htok : (heapGet heap rS).token = symbol :=
        (hok (symbol, rS) (List.mem_cons_self _ _)).2
      have hrest : ∀ kv ∈ rest, kv.2 ≠ rS := by
        intro kv hkv he
        have htk := (hok kv (List.mem_cons_of_mem _ hkv)).2
        rw [he, htok] at htk
        exact hnd.1 (htk ▸ List.mem_map_of_mem Prod.fst hkv)
      rw [mergeExports_cons]
      constructor
      · rw [mergeExports_map_frame cname _ _ hnd.1]
        exact alookup_dictSet_self m symbol rS
      · rw [mergeExports_heap_frame cname _ _ hrest]
        exact heapGet_set_self hb _
    · have hmem1 : (s, rS) ∈ rest := by
        rcases List.mem_cons.mp hmem with h | h
        · exact absurd (Prod.ext_iff.mp h).1.symm hs
        · exact h
      have hrne : r ≠ rS := by
        intro he
        have h1 : (heapGet heap r).token = symbol :=
          (hok (symbol, r) (List.mem_cons_self _ _)).2
        have h2 : (heapGet heap rS).token = s := (hok (s, rS) hmem).2
        rw [he] at h1
        exact hs (by rw [← h1, h2])
      rw [mergeExports_cons]
      have hok1 : ∀ kv ∈ rest,
          kv.2 < (heapSet heap r { heapGet heap r with
            origin := some cname
            fromCache := true
            type := RType.provider }).length ∧
          (heapGet (heapSet heap r { heapGet heap r with
            origin := some cname
            fromCache := true
            type := RType.provider }) kv.2).token = kv.1 := by
        intro kv hkv
        obtain ⟨hb1, ht1⟩ := hok kv (List.mem_cons_of_mem _ hkv)
        refine ⟨by rw [heapSet_length]; exact hb1, ?_⟩
        rw [set_merge_token heap r kv.2 cname]
        exact ht1
      obtain ⟨ihl, ihr⟩ := ih (dictSet m symbol r) _ hmem1 hnd.2 hok1
      refine ⟨ihl, ?_⟩
      rw [ihr, heapGet_set_ne hrne.symm]

/-! ### Lemmas about the cross-container provider lookup -/

theorem getProviderAux_wf {heap : List Resolution}
    {cache : List (String × ContainerObj)} {t : String} {r : Nat}
    (hwf : CacheWF heap cache) (h : getProviderAux heap cache t = some r) :
    r < heap.length ∧ (heapGet heap r).token = t := by
  induction cache with
  | nil => simp [getProviderAux] at h
  | cons p rest ih =>
    obtain ⟨k, c⟩ := p
    unfold getProviderAux at h
    by_cases hc : ((providersView heap c.resolutions).map Prod.fst).contains t
    · rw [if_pos hc] at h
      have hm := alookup_mem h
      exact (hwf (k, c) (List.mem_cons_self _ _)).2 (t, r) hm
    · rw [if_neg hc] at h
      exact ih (fun q hq => hwf q (List.mem_cons_of_mem _ hq)) h

/-! ### Step equations and invariants for the provider/export loop -/

theorem heapSet_fc_ty (h : List Resolution) (r : Nat) (ty : RType) :
    heapSet (heapSet h r { heapGet h r with fromCache := true }) r
      { heapGet (heapSet h r { heapGet h r with fromCache := true }) r with type := ty } =
    heapSet h r { heapGet h r with fromCache := true, type := ty } := by
  rw [heapSet_twice]
  by_cases hr : r < h.length
  · rw [heapGet_set_self hr]
  · have hle := Nat.le_of_not_lt hr
    simp [heapSet_oob hle]

theorem resolveLoop_cons_hit (w : World) (provs exps : List Nat) (re : Bool)
    (item : Nat) (rest : List Nat) (m : List (String × Nat)) (st : St) {r : Nat}
    (hg : getProviderAux st.heap st.cache ((w.elemOf item).token) = some r) :
    resolveLoop w provs exps re (item :: rest) m st =
      resolveLoop w provs exps re rest (dictSet m ((w.elemOf item).token) r)
        { st with heap := heapSet st.heap r { heapGet st.heap r with
            fromCache := true
            type := if exps.contains item && re then RType.exported else RType.provider } } := by
  conv_lhs => rw [resolveLoop]
  rw [hg]
  dsimp only
  rw [heapSet_fc_ty]

theorem resolveLoop_cons_miss (w : World) (provs exps : List Nat) (re : Bool)
    (item : Nat) (rest : List Nat) (m : List (String × Nat)) (st : St)
    {instRef : Nat} {deps : List String} {st1 : St}
    (hg : getProviderAux st.heap st.cache ((w.elemOf item).token) = none)
    (hcr : containerResolve w provs exps m item st = (Except.ok (instRef, deps), st1)) :
    resolveLoop w provs exps re (item :: rest) m st =
      resolveLoop w provs exps re rest (dictSet m ((w.elemOf item).token) st1.heap.length)
        { st1 with heap := st1.heap ++ [⟨(w.elemOf item).token,
            (if provs.contains item then RType.provider else RType.exported),
            instRef, deps, none, false⟩] } := by
  conv_lhs => rw [resolveLoop]
  rw [hg]
  dsimp only
  rw [hcr]

theorem resolveLoop_cons_err (w : World) (provs exps : List Nat) (re : Bool)
    (item : Nat) (rest : List Nat) (m : List (String × Nat)) (st : St)
    {e : Err} {st1 : St}
    (hg : getProviderAux st.heap st.cache ((w.elemOf item).token) = none)
    (hcr : containerResolve w provs exps m item st = (Except.error e, st1)) :
    resolveLoop w provs exps re (item :: rest) m st = (Except.error e, st1) := by
  conv_lhs => rw [resolveLoop]
  rw [hg]
  dsimp only
  rw [hcr]

theorem CacheWF_heapSet_keep {heap : List Resolution}
    {cache : List (String × ContainerObj)} {r : Nat} {v : Resolution}
    (hv : v.token = (heapGet heap r).token) (hwf : CacheWF heap cache) :
    CacheWF (heapSet heap r v) cache := by
  intro p hp
  obtain ⟨hnd, hent⟩ := hwf p hp
  refine ⟨hnd, ?_⟩
  intro kv hkv
  obtain ⟨hb, ht⟩ := hent kv hkv
  refine ⟨by rw [heapSet_length]; exact hb, ?_⟩
  rw [heapGet_set_token hv]
  exact ht

theorem CacheWF_append {heap : List Resolution}
    {cache : List (String × ContainerObj)} (t : List Resolution)
    (hwf : CacheWF heap cache) : CacheWF (heap ++ t) cache := by
  intro p hp
  obtain ⟨hnd, hent⟩ := hwf p hp
  refine ⟨hnd, ?_⟩
  intro kv hkv
  obtain ⟨hb, ht⟩ := hent kv hkv
  refine ⟨Nat.lt_of_lt_of_le hb (by simp), ?_⟩
  rw [heapGet_append_lt hb]
  exact ht

theorem resolveLoop_cache (w : World) (provs exps : List Nat) (re : Bool) :
    ∀ (items : List Nat) (m : List (String × Nat)) (st : St),
    (resolveLoop w provs exps re items m st).2.cache = st.cache := by
  intro items
  induction items with
  | nil => intro m st; simp [resolveLoop]
  | cons item rest ih =>
    intro m st
    rcases hg : getProviderAux st.heap st.cache ((w.elemOf item).token) with _ | r
    · rcases hcr : containerResolve w provs exps m item st with ⟨res, st1⟩
      have hfr := (containerResolve_frame w provs exps m item st).2
      rw [hcr] at hfr
      cases res with
      | error e =>
        rw [resolveLoop_cons_err w provs exps re item rest m st hg hcr]
        exact hfr
      | ok pr =>
        obtain ⟨instRef, deps⟩ := pr
        rw [resolveLoop_cons_miss w provs exps re item rest m st hg hcr, ih]
        exact hfr
    · rw [resolveLoop_cons_hit w provs exps re item rest m st hg, ih]

/-- Running the provider/export loop over items none of whose tokens equals
s leaves both the map entry for s and the resolution it points to alone. -/
theorem resolveLoop_preserve (w : World) (provs exps : List Nat) (re : Bool)
    {s : String} {rS : Nat} :
    ∀ (items : List Nat) (m : List (String × Nat)) (st : St)
      {m1 : List (String × Nat)} {st1 : St},
    CacheWF st.heap st.cache →
    (∀ i ∈ items, (w.elemOf i).token ≠ s) →
    alookup m s = some rS →
    rS < st.heap.length →
    (heapGet st.heap rS).token = s →
    resolveLoop w provs exps re items m st = (Except.ok m1, st1) →
    alookup m1 s = some rS ∧ heapGet st1.heap rS = heapGet st.heap rS := by
  intro items
  induction items with
  | nil =>
    intro m st m1 st1 _ _ hl _ _ hrun
    simp only [resolveLoop, Prod.mk.injEq, Except.ok.injEq] at hrun
    obtain ⟨hm, hst⟩ := hrun
    subst hm; subst hst
    exact ⟨hl, rfl⟩
  | cons item rest ih =>
    intro m st m1 st1 hwf hni hl hb htk hrun
    have hts : (w.elemOf item).token ≠ s := hni item (List.mem_cons_self _ _)
    have hni1 : ∀ i ∈ rest, (w.elemOf i).token ≠ s :=
      fun i hi => hni i (List.mem_cons_of_mem _ hi)
    rcases hg : getProviderAux st.heap st.cache ((w.elemOf item).token) with _ | r
    · rcases hcr : containerResolve w provs exps m item st with ⟨res, st2⟩
      have hfrh := (containerResolve_frame w provs exps m item st).1
      have hfrc := (containerResolve_frame w provs exps m item st).2
      rw [hcr] at hfrh hfrc
      cases res with
      | error e =>
        rw [resolveLoop_cons_err w provs exps re item rest m st hg hcr] at hrun
        simp at hrun
      | ok pr =>
        obtain ⟨instRef, deps⟩ := pr
        rw [resolveLoop_cons_miss w provs exps re item rest m st hg hcr] at hrun
        have hb2 : rS < (st2.heap ++ [(⟨(w.elemOf item).token,
            (if provs.contains item then RType.provider else RType.exported),
            instRef, deps, none, false⟩ : Resolution)]).length := by
          rw [List.length_append, hfrh]
          exact Nat.lt_of_lt_of_le hb (Nat.le_add_right _ _)
        have hget : heapGet (st2.heap ++ [(⟨(w.elemOf item).token,
            (if provs.contains item then RType.provider else RType.exported),
            instRef, deps, none, false⟩ : Resolution)]) rS = heapGet st.heap rS := by
          rw [hfrh] at *
          exact heapGet_append_lt hb _
        obtain ⟨ih1, ih2⟩ := ih (dictSet m ((w.elemOf item).token) st2.heap.length) _
          (by
            dsimp only
            rw [hfrc]
            refine CacheWF_append _ ?_
            rw [hfrh]
            exact hwf)
          hni1
          (by
            rw [alookup_dictSet_ne (Ne.symm hts)]
            exact hl)
          hb2
          (by rw [hget]; exact htk)
          hrun
        refine ⟨ih1, ?_⟩
        rw [ih2]
        exact hget
    · obtain ⟨hrb, hrt⟩ := getProviderAux_wf hwf hg
      have hrne : rS ≠ r := by
        intro he
        rw [← he, htk] at hrt
        exact hts hrt.symm
      rw [resolveLoop_cons_hit w provs exps re item rest m st hg] at hrun
      have hget : heapGet (heapSet st.heap r { heapGet st.heap r with
          fromCache := true
          type := if exps.contains item && re then RType.exported
            else RType.provider }) rS = heapGet st.heap rS :=
        heapGet_set_ne hrne _
      obtain ⟨ih1, ih2⟩ := ih (dictSet m ((w.elemOf item).token) r) _
        (by
          dsimp only
          exact CacheWF_heapSet_keep rfl hwf)
        hni1
        (by
          rw [alookup_dictSet_ne (Ne.symm hts)]
          exact hl)
        (by rw [heapSet_length]; exact hb)
        (by rw [hget]; exact htk)
        hrun
      refine ⟨ih1, ?_⟩
      rw [ih2]
      exact hget

/-! ### Step equations for construction and import resolution -/

theorem construct_succ (w : World) (f ci : Nat) (st : St) :
    construct w (f + 1) ci st =
      match resolveImportsGo w (fun cj st2 => construct w f cj st2)
          ((w.containerOf ci).imports) [] st with
      | (Except.error e, st1) => (Except.error e, st1)
      | (Except.ok m, st1) => makeResolution w (w.containerOf ci) m st1 := rfl

theorem resolveImportsGo_nil (w : World)
    (cstr : Nat → St → (Except Err ContainerObj) × St)
    (m : List (String × Nat)) (st : St) :
    resolveImportsGo w cstr [] m st = (Except.ok m, st) := rfl

theorem resolveImportsGo_cached_cons (w : World)
    (cstr : Nat → St → (Except Err ContainerObj) × St)
    (ci : Nat) (rest : List Nat) (m : List (String × Nat)) (st : St)
    {c : ContainerObj}
    (hc : alookup st.cache ((w.containerOf ci).token) = some c) :
    resolveImportsGo w cstr (ci :: rest) m st =
      resolveImportsGo w cstr rest
        (mergeExports c.name (exportsView st.heap c.resolutions) m st.heap).1
        { st with heap := (mergeExports c.name (exportsView st.heap c.resolutions) m st.heap).2 } := by
  conv_lhs => rw [resolveImportsGo]
  rw [hc]

theorem resolveImportsGo_miss_cons (w : World)
    (cstr : Nat → St → (Except Err ContainerObj) × St)
    (ci : Nat) (rest : List Nat) (m : List (String × Nat)) (st : St)
    {c : ContainerObj} {st1 : St}
    (hc : alookup st.cache ((w.containerOf ci).token) = none)
    (hcstr : cstr ci st = (Except.ok c, st1)) :
    resolveImportsGo w cstr (ci :: rest) m st =
      resolveImportsGo w cstr rest
        (mergeExports c.name
          (exportsView st1.heap c.resolutions) m st1.heap).1
        { st1 with
          cache := dictSet st1.cache c.token c
          heap := (mergeExports c.name (exportsView st1.heap c.resolutions) m st1.heap).2 } := by
  conv_lhs => rw [resolveImportsGo]
  rw [hc]
  dsimp only
  rw [hcstr]

theorem resolveImportsGo_err_cons (w : World)
    (cstr : Nat → St → (Except Err ContainerObj) × St)
    (ci : Nat) (rest : List Nat) (m : List (String × Nat)) (st : St)
    {e : Err} {st1 : St}
    (hc : alookup st.cache ((w.containerOf ci).token) = none)
    (hcstr : cstr ci st = (Except.error e, st1)) :
    resolveImportsGo w cstr (ci :: rest) m st = (Except.error e, st1) := by
  conv_lhs => rw [resolveImportsGo]
  rw [hc]
  dsimp only
  rw [hcstr]

theorem CacheWF_mergeExports (cname : String) (exps mm : List (String × Nat))
    {heap : List Resolution} {cache : List (String × ContainerObj)}
    (hwf : CacheWF heap cache) :
    CacheWF (mergeExports cname exps mm heap).2 cache := by
  intro p hp
  obtain ⟨hnd, hent⟩ := hwf p hp
  refine ⟨hnd, ?_⟩
  intro kv hkv
  obtain ⟨hb, ht⟩ := hent kv hkv
  refine ⟨by rw [mergeExports_length]; exact hb, ?_⟩
  rw [mergeExports_token]
  exact ht

theorem exportsView_mem {heap : List Resolution} {m : List (String × Nat)}
    {s : String} {rS : Nat} (hl : alookup m s = some rS)
    (hty : (heapGet heap rS).type = RType.exported) :
    (s, rS) ∈ exportsView heap m := by
  refine List.mem_filter.mpr ⟨alookup_mem hl, ?_⟩
  dsimp only
  rw [hty]
  rfl

theorem exportsView_keys_nodup {heap : List Resolution} {m : List (String × Nat)}
    (h : (m.map Prod.fst).Nodup) :
    ((exportsView heap m).map Prod.fst).Nodup :=
  List.Nodup.sublist (List.Sublist.map Prod.fst (List.filter_sublist m)) h

theorem exportsView_subset {heap : List Resolution} {m : List (String × Nat)}
    {kv : String × Nat} (h : kv ∈ exportsView heap m) : kv ∈ m :=
  List.mem_of_mem_filter h

/-- Constructing a container a whose single import bi is already cached as
B: the import merge installs the shared resolution of each export of B,
and the subsequent provider/export loop leaves the entry for an export
token s alone when a re-declares no class with that token.  The shared
heap cell for s ends with role "provider", origin B, fromCache true, the
other fields unchanged, and the cache gains exactly the entry for a. -/
theorem construct_single_import_facts (w : World) (f a bi : Nat) (B : ContainerObj)
    (s : String) (rS : Nat) (st : St) {obj : ContainerObj} {st1 : St}
    (hwf : CacheWF st.heap st.cache)
    (hImp : (w.containerOf a).imports = [bi])
    (hB : alookup st.cache ((w.containerOf bi).token) = some B)
    (hS : alookup B.resolutions s = some rS)
    (hSexp : (heapGet st.heap rS).type = RType.exported)
    (hAnone : alookup st.cache ((w.containerOf a).token) = none)
    (hNoRedecl : ∀ p ∈ (w.containerOf a).providers ++ (w.containerOf a).exports,
      (w.elemOf p).token ≠ s)
    (hRun : construct w (f + 1) a st = (Except.ok obj, st1)) :
    alookup obj.resolutions s = some rS ∧
    heapGet st1.heap rS = { heapGet st.heap rS with
      origin := some B.name
      fromCache := true
      type := RType.provider } ∧
    st1.cache = dictSet st.cache ((w.containerOf a).token) obj := by
  rw [construct_succ, hImp,
    resolveImportsGo_cached_cons w _ bi [] [] st hB, resolveImportsGo_nil] at hRun
  have hMB := hwf _ (alookup_mem hB)
  obtain ⟨hrSb, hrSt⟩ := hMB.2 (s, rS) (alookup_mem hS)
  have hsnapNodup := @exportsView_keys_nodup st.heap B.resolutions hMB.1
  have hsnapOK : ∀ kv ∈ exportsView st.heap B.resolutions,
      kv.2 < st.heap.length ∧ (heapGet st.heap kv.2).token = kv.1 :=
    fun kv hkv => hMB.2 kv (exportsView_subset hkv)
  have hsmem : (s, rS) ∈ exportsView st.heap B.resolutions := exportsView_mem hS hSexp
  obtain ⟨hMl, hHr⟩ :=
    mergeExports_target B.name [] st.heap hsmem hsnapNodup hsnapOK
  unfold makeResolution at hRun
  dsimp only at hRun
  rw [hAnone] at hRun
  dsimp only at hRun
  rcases hloop : resolveLoop w ((w.containerOf a).providers) ((w.containerOf a).exports)
      ((w.containerOf a).reExport)
      ((w.containerOf a).providers ++ (w.containerOf a).exports)
      ((mergeExports B.name (exportsView st.heap B.resolutions) [] st.heap).1)
      { st with heap := (mergeExports B.name (exportsView st.heap B.resolutions) [] st.heap).2 }
      with ⟨res, st2⟩
  rw [hloop] at hRun
  cases res with
  | error e => simp at hRun
  | ok m2 =>
    dsimp only at hRun
    have hcc := resolveLoop_cache w ((w.containerOf a).providers) ((w.containerOf a).exports)
      ((w.containerOf a).reExport)
      ((w.containerOf a).providers ++ (w.containerOf a).exports)
      ((mergeExports B.name (exportsView st.heap B.resolutions) [] st.heap).1)
      { st with heap := (mergeExports B.name (exportsView st.heap B.resolutions) [] st.heap).2 }
    rw [hloop] at hcc
    obtain ⟨hpl, hph⟩ := resolveLoop_preserve w ((w.containerOf a).providers)
      ((w.containerOf a).exports) ((w.containerOf a).reExport)
      ((w.containerOf a).providers ++ (w.containerOf a).exports)
      ((mergeExports B.name (exportsView st.heap B.resolutions) [] st.heap).1)
      { st with heap := (mergeExports B.name (exportsView st.heap B.resolutions) [] st.heap).2 }
      (by
        dsimp only
        exact CacheWF_mergeExports B.name _ _ hwf)
      hNoRedecl
      hMl
      (by dsimp only; rw [mergeExports_length]; exact hrSb)
      (by dsimp only; rw [mergeExports_token]; exact hrSt)
      hloop
    simp only [Prod.mk.injEq, Except.ok.injEq] at hRun
    obtain ⟨hobj, hst1⟩ := hRun
    refine ⟨?_, ?_, ?_⟩
    · rw [← hobj]
      exact hpl
    · rw [← hst1]
      dsimp only
      rw [hph]
      dsimp only at hHr
      exact hHr
    · rw [← hst1]
      dsimp only
      rw [hcc]
      dsimp only
      rw [← hobj]

/-! ### Claim C1 -/

/-- C1: for a container a importing a container whose cached instance B
exports a symbol with token s (and a re-declares no class with that token
in its providers or exports), a successful construction of a yields a
resolution for s in a's map whose role is "provider", whose origin is B's
class name and whose fromCache flag is true.  The reExport flag of a is
part of the arbitrary world w and is not constrained by any hypothesis, so
the conclusion holds regardless of its value. -/
theorem claim_C1_import_role_promotion (w : World) (f a bi : Nat)
    (B : ContainerObj) (s : String) (rS : Nat) (st : St)
    {obj : ContainerObj} {st1 : St}
    (hwf : CacheWF st.heap st.cache)
    (hImp : (w.containerOf a).imports = [bi])
    (hB : alookup st.cache ((w.containerOf bi).token) = some B)
    (hS : alookup B.resolutions s = some rS)
    (hSexp : (heapGet st.heap rS).type = RType.exported)
    (hAnone : alookup st.cache ((w.containerOf a).token) = none)
    (hNoRedecl : ∀ p ∈ (w.containerOf a).providers ++ (w.containerOf a).exports,
      (w.elemOf p).token ≠ s)
    (hRun : construct w (f + 1) a st = (Except.ok obj, st1)) :
    alookup obj.resolutions s = some rS ∧
    (heapGet st1.heap rS).type = RType.provider ∧
    (heapGet st1.heap rS).origin = some B.name ∧
    (heapGet st1.heap rS).fromCache = true := by
  obtain ⟨h1, h2, h3⟩ := construct_single_import_facts w f a bi B s rS st
    hwf hImp hB hS hSexp hAnone hNoRedecl hRun
  exact ⟨h1, by rw [h2], by rw [h2], by rw [h2]⟩

/-- Witness for C1 at the concrete world W0: constructing A (which imports
the cached B exporting S) places S in A's map as a provider originating
from B. -/
theorem claim_C1_witness :
    alookup objA.resolutions "S" = some 0 ∧
    (heapGet stA.heap 0).type = RType.provider ∧
    (heapGet stA.heap 0).origin = some "B" ∧
    (heapGet stA.heap 0).fromCache = true :=
  @claim_C1_import_role_promotion W0 1 1 0 Bobj "S" 0 stB objA stA
    (by decide) (by decide) (by decide) (by decide) (by decide) (by decide)
    (by decide) rfl

/-! ### Claim C5 -/

/-- Counterexample to C5: before constructing A, B's cached entry for S is
an export with fromCache false and no origin; after constructing A (which
merely imports B), the very same resolution reachable from B's own cached
map has role "provider", fromCache true and origin "B" — the merge mutates
the shared resolution object, so B's entry does not stay unchanged. -/
theorem claim_C5_counterexample :
    alookup stB.cache "B" = some Bobj ∧
    alookup Bobj.resolutions "S" = some 0 ∧
    (heapGet stB.heap 0).type = RType.exported ∧
    (heapGet stB.heap 0).fromCache = false ∧
    (heapGet stB.heap 0).origin = none ∧
    alookup stA.cache "B" = some Bobj ∧
    (heapGet stA.heap 0).type = RType.provider ∧
    (heapGet stA.heap 0).fromCache = true ∧
    (heapGet stA.heap 0).origin = some "B" := by
  decide

/-- C5 as amended: the merge installs each exported resolution of the
imported container into the importer's map by reference and mutates the
shared object in place.  After constructing a, the imported container B is
still cached under its token with the same map, but the resolution that
map holds for s now carries role "provider", fromCache true and origin B's
name (token, instance and dependency strings unchanged); only these three
fields change, and they change for B too because the object is shared. -/
theorem claim_C5_amended_merge_mutates_shared (w : World) (f a bi : Nat)
    (B : ContainerObj) (s : String) (rS : Nat) (st : St)
    {obj : ContainerObj} {st1 : St}
    (hwf : CacheWF st.heap st.cache)
    (hImp : (w.containerOf a).imports = [bi])
    (hB : alookup st.cache ((w.containerOf bi).token) = some B)
    (hS : alookup B.resolutions s = some rS)
    (hSexp : (heapGet st.heap rS).type = RType.exported)
    (hAnone : alookup st.cache ((w.containerOf a).token) = none)
    (hNoRedecl : ∀ p ∈ (w.containerOf a).providers ++ (w.containerOf a).exports,
      (w.elemOf p).token ≠ s)
    (hBA : (w.containerOf bi).token ≠ (w.containerOf a).token)
    (hRun : construct w (f + 1) a st = (Except.ok obj, st1)) :
    alookup st1.cache ((w.containerOf bi).token) = some B ∧
    heapGet st1.heap rS = { heapGet st.heap rS with
      origin := some B.name
      fromCache := true
      type := RType.provider } := by
  obtain ⟨h1, h2, h3⟩ := construct_single_import_facts w f a bi B s rS st
    hwf hImp hB hS hSexp hAnone hNoRedecl hRun
  refine ⟨?_, h2⟩
  rw [h3, alookup_dictSet_ne hBA]
  exact hB

/-- Witness for the amended C5 at the concrete world W0. -/
theorem claim_C5_witness :
    alookup stA.cache "B" = some Bobj ∧
    heapGet stA.heap 0 = { heapGet stB.heap 0 with
      origin := some "B"
      fromCache := true
      type := RType.provider } :=
  @claim_C5_amended_merge_mutates_shared W0 1 1 0 Bobj "S" 0 stB objA stA
    (by decide) (by decide) (by decide) (by decide) (by decide) (by decide)
    (by decide) (by decide) rfl

/-! ### Claim C2 -/

theorem resolveImportsGo_all_cached (w : World)
    (cstr : Nat → St → (Except Err ContainerObj) × St) :
    ∀ (imports : List Nat) (m : List (String × Nat)) (st : St),
    (∀ i ∈ imports, ∃ c, alookup st.cache ((w.containerOf i).token) = some c) →
    ∃ m1 st1, resolveImportsGo w cstr imports m st = (Except.ok m1, st1) ∧
      st1.cache = st.cache ∧ st1.insts = st.insts ∧
      st1.heap.length = st.heap.length := by
  intro imports
  induction imports with
  | nil => intro m st _; exact ⟨m, st, rfl, rfl, rfl, rfl⟩
  | cons ci rest ih =>
    intro m st h
    obtain ⟨c, hc⟩ := h ci (List.mem_cons_self _ _)
    rw [resolveImportsGo_cached_cons w cstr ci rest m st hc]
    obtain ⟨m1, st1, hrun, hca, hin, hl⟩ := ih
      ((mergeExports c.name (exportsView st.heap c.resolutions) m st.heap).1)
      { st with heap := (mergeExports c.name (exportsView st.heap c.resolutions) m st.heap).2 }
      (by
        intro i hi
        obtain ⟨ci2, hci2⟩ := h i (List.mem_cons_of_mem _ hi)
        exact ⟨ci2, hci2⟩)
    refine ⟨m1, st1, hrun, hca, hin, ?_⟩
    rw [hl]
    dsimp only
    rw [mergeExports_length]

/-- C2: constructing a container class a second time, with its token
already in the cache as c0 and all its imports cached, succeeds and adopts
c0's whole resolutions map verbatim: the result's map is c0's map, the
cache and instance heap are unchanged (nothing is registered, no provider
or export is instantiated), and no resolution is allocated — regardless of
what the new class's declared provider/export lists are. -/
theorem claim_C2_second_construction_reuses_cache (w : World) (f a : Nat)
    (c0 : ContainerObj) (st : St)
    (hc : alookup st.cache ((w.containerOf a).token) = some c0)
    (hImps : ∀ i ∈ (w.containerOf a).imports,
      ∃ c, alookup st.cache ((w.containerOf i).token) = some c) :
    ∃ st1, construct w (f + 1) a st =
      (Except.ok ⟨(w.containerOf a).name, (w.containerOf a).token,
        (w.containerOf a).providers, (w.containerOf a).exports,
        (w.containerOf a).imports, (w.containerOf a).reExport,
        c0.resolutions⟩, st1) ∧
      st1.cache = st.cache ∧ st1.insts = st.insts ∧
      st1.heap.length = st.heap.length := by
  obtain ⟨m1, st1, hrun, hca, hin, hl⟩ :=
    resolveImportsGo_all_cached w (fun cj st2 => construct w f cj st2)
      ((w.containerOf a).imports) [] st hImps
  refine ⟨st1, ?_, hca, hin, hl⟩
  rw [construct_succ, hrun]
  dsimp only
  unfold makeResolution
  rw [hca, hc]

/-- Witness for C2: constructing B a second time on top of stB yields the
cached resolution map and changes nothing. -/
theorem claim_C2_witness :
    ∃ st1, construct W0 1 0 stB =
      (Except.ok ⟨(W0.containerOf 0).name, (W0.containerOf 0).token,
        (W0.containerOf 0).providers, (W0.containerOf 0).exports,
        (W0.containerOf 0).imports, (W0.containerOf 0).reExport,
        Bobj.resolutions⟩, st1) ∧
      st1.cache = stB.cache ∧ st1.insts = stB.insts ∧
      st1.heap.length = stB.heap.length :=
  claim_C2_second_construction_reuses_cache W0 0 0 Bobj stB (by decide)
    (by
      intro i hi
      rw [show (W0.containerOf 0).imports = [] from rfl] at hi
      exact absurd hi (List.not_mem_nil i))

/-! ### Claim C6 -/

/-- C6: if the import-resolution phase of constructing a succeeded (ending
in state stI) but the construction as a whole raises, then the final cache
is exactly the cache as of the end of the import phase: a is never
registered (given its token was not cached at that point), while every
container cached during import resolution remains cached.  There is no
rollback across the import graph. -/
theorem claim_C6_failure_leaves_imports_cached (w : World) (f a : Nat) (st : St)
    {m : List (String × Nat)} {stI : St} {e : Err} {st1 : St}
    (hImports : resolveImportsGo w (fun cj st2 => construct w f cj st2)
      ((w.containerOf a).imports) [] st = (Except.ok m, stI))
    (hTokA : alookup stI.cache ((w.containerOf a).token) = none)
    (hRun : construct w (f + 1) a st = (Except.error e, st1)) :
    st1.cache = stI.cache ∧
    alookup st1.cache ((w.containerOf a).token) = none := by
  rw [construct_succ, hImports] at hRun
  dsimp only at hRun
  unfold makeResolution at hRun
  rw [hTokA] at hRun
  dsimp only at hRun
  rcases hloop : resolveLoop w ((w.containerOf a).providers) ((w.containerOf a).exports)
      ((w.containerOf a).reExport)
      ((w.containerOf a).providers ++ (w.containerOf a).exports) m stI
      with ⟨res, st2⟩
  rw [hloop] at hRun
  have hcc := resolveLoop_cache w ((w.containerOf a).providers) ((w.containerOf a).exports)
    ((w.containerOf a).reExport)
    ((w.containerOf a).providers ++ (w.containerOf a).exports) m stI
  rw [hloop] at hcc
  cases res with
  | error e2 =>
    simp only [Prod.mk.injEq, Except.error.injEq] at hRun
    obtain ⟨he, hst⟩ := hRun
    subst hst
    exact ⟨hcc, by rw [hcc]; exact hTokA⟩
  | ok m2 => simp at hRun

/-- Witness for C6: constructing F (which imports B and then fails on its
own provider Bad, whose dependency Q is unresolvable) leaves the cache
exactly as the import phase left it — B cached, F absent. -/
theorem claim_C6_witness :
    (construct W0 2 4 st0).2.cache = stFImp.cache ∧
    alookup (construct W0 2 4 st0).2.cache ((W0.containerOf 4).token) = none :=
  @claim_C6_failure_leaves_imports_cached W0 1 4 st0 mFImp stFImp
    (Err.keyError "Provider with Q not found") ((construct W0 2 4 st0).2)
    rfl (by decide) rfl

/-! ### Claim C3 -/

theorem isProv_ite (c : Bool) :
    ((if c then RType.provider else RType.exported)).isProv = c := by
  cases c <;> rfl

theorem isExp_ite (c : Bool) :
    ((if c then RType.provider else RType.exported)).isExp = !c := by
  cases c <;> rfl

theorem providersView_append (heap : List Resolution) (a b : List (String × Nat)) :
    providersView heap (a ++ b) = providersView heap a ++ providersView heap b := by
  unfold providersView
  rw [List.filter_append]

theorem exportsView_append (heap : List Resolution) (a b : List (String × Nat)) :
    exportsView heap (a ++ b) = exportsView heap a ++ exportsView heap b := by
  unfold exportsView
  rw [List.filter_append]

theorem providersView_congr {heap heap' : List Resolution} {m : List (String × Nat)}
    (h : ∀ kv ∈ m, heapGet heap' kv.2 = heapGet heap kv.2) :
    providersView heap' m = providersView heap m := by
  unfold providersView
  refine List.filter_congr ?_
  intro kv hk
  rw [h kv hk]

theorem exportsView_congr {heap heap' : List Resolution} {m : List (String × Nat)}
    (h : ∀ kv ∈ m, heapGet heap' kv.2 = heapGet heap kv.2) :
    exportsView heap' m = exportsView heap m := by
  unfold exportsView
  refine List.filter_congr ?_
  intro kv hk
  rw [h kv hk]

theorem providersView_singleton (heap : List Resolution) (k : String) (r : Nat) :
    (providersView heap [(k, r)]).length =
      if ((heapGet heap r).type).isProv then 1 else 0 := by
  unfold providersView
  by_cases h : ((heapGet heap r).type).isProv <;> simp [h]

theorem exportsView_singleton (heap : List Resolution) (k : String) (r : Nat) :
    (exportsView heap [(k, r)]).length =
      if ((heapGet heap r).type).isExp then 1 else 0 := by
  unfold exportsView
  by_cases h : ((heapGet heap r).type).isExp <;> simp [h]

/-- With an empty cache, the provider/export loop never hits the
cross-container lookup: every item is resolved fresh, entries accumulate
one per item, and the role split follows membership in the providers
list. -/
theorem resolveLoop_counts (w : World) (provs exps : List Nat) (re : Bool) :
    ∀ (items : List Nat) (m : List (String × Nat)) (st : St)
      {m1 : List (String × Nat)} {st1 : St},
    st.cache = [] →
    ((m.map Prod.fst) ++ (items.map (fun i => (w.elemOf i).token))).Nodup →
    (∀ kv ∈ m, kv.2 < st.heap.length) →
    resolveLoop w provs exps re items m st = (Except.ok m1, st1) →
    m1.length = m.length + items.length ∧
    (providersView st1.heap m1).length =
      (providersView st.heap m).length + (items.countP (fun i => provs.contains i)) ∧
    (exportsView st1.heap m1).length =
      (exportsView st.heap m).length + (items.countP (fun i => !(provs.contains i))) := by
  intro items
  induction items with
  | nil =>
    intro m st m1 st1 _ _ _ hrun
    simp only [resolveLoop, Prod.mk.injEq, Except.ok.injEq] at hrun
    obtain ⟨hm, hst⟩ := hrun
    subst hm; subst hst
    simp
  | cons item rest ih =>
    intro m st m1 st1 hcache hnd hbnd hrun
    have hg : getProviderAux st.heap st.cache ((w.elemOf item).token) = none := by
      rw [hcache]
      rfl
    rcases hcr : containerResolve w provs exps m item st with ⟨res, st2⟩
    have hfrh := (containerResolve_frame w provs exps m item st).1
    have hfrc := (containerResolve_frame w provs exps m item st).2
    rw [hcr] at hfrh hfrc
    cases res with
    | error e =>
      rw [resolveLoop_cons_err w provs exps re item rest m st hg hcr] at hrun
      simp at hrun
    | ok pr =>
      obtain ⟨instRef, deps⟩ := pr
      rw [resolveLoop_cons_miss w provs exps re item rest m st hg hcr] at hrun
      rw [List.map_cons] at hnd
      have hdisj := (List.nodup_append.mp hnd).2.2
      have hnotmem : (w.elemOf item).token ∉ m.map Prod.fst := by
        intro hx
        exact hdisj hx (List.mem_cons_self _ _)
      have hset := dictSet_not_mem hnotmem st2.heap.length
      have hL : st2.heap.length = st.heap.length := by rw [hfrh]
      have hnd1 : (((dictSet m ((w.elemOf item).token) st2.heap.length).map Prod.fst) ++
          (rest.map (fun i => (w.elemOf i).token))).Nodup := by
        rw [hset, List.map_append, List.append_assoc]
        simpa using hnd
      have hbnd1 : ∀ kv ∈ dictSet m ((w.elemOf item).token) st2.heap.length,
          kv.2 < (st2.heap ++ [(⟨(w.elemOf item).token,
            (if provs.contains item then RType.provider else RType.exported),
            instRef, deps, none, false⟩ : Resolution)]).length := by
        rw [hset]
        intro kv hkv
        rw [List.length_append]
        rcases List.mem_append.mp hkv with hk | hk
        · have := hbnd kv hk
          rw [hL]
          exact Nat.lt_of_lt_of_le this (Nat.le_add_right _ _)
        · simp only [List.mem_singleton] at hk
          subst hk
          simp
      obtain ⟨ihl, ihp, ihe⟩ := ih (dictSet m ((w.elemOf item).token) st2.heap.length)
        { st2 with heap := st2.heap ++ [(⟨(w.elemOf item).token,
            (if provs.contains item then RType.provider else RType.exported),
            instRef, deps, none, false⟩ : Resolution)] }
        (by dsimp only; rw [hfrc]; exact hcache)
        hnd1
        hbnd1
        hrun
      dsimp only at ihp ihe
      have hgetold : ∀ kv ∈ m,
          heapGet (st2.heap ++ [(⟨(w.elemOf item).token,
            (if provs.contains item then RType.provider else RType.exported),
            instRef, deps, none, false⟩ : Resolution)]) kv.2 = heapGet st.heap kv.2 := by
        intro kv hk
        have hb := hbnd kv hk
        rw [← hL] at hb
        rw [heapGet_append_lt hb, hfrh]
      have hgetnew :
          heapGet (st2.heap ++ [(⟨(w.elemOf item).token,
            (if provs.contains item then RType.provider else RType.exported),
            instRef, deps, none, false⟩ : Resolution)]) st2.heap.length =
          ⟨(w.elemOf item).token,
            (if provs.contains item then RType.provider else RType.exported),
            instRef, deps, none, false⟩ := heapGet_append_self _ _
      refine ⟨?_, ?_, ?_⟩
      · rw [ihl, hset, List.length_append]
        simp [Nat.add_assoc, Nat.add_comm 1 rest.length]
      · rw [ihp, hset, providersView_append,
          providersView_congr hgetold, List.length_append,
          providersView_singleton, hgetnew, isProv_ite, List.countP_cons]
        by_cases hpi : provs.contains item = true
        · rw [hpi]
          simp only [if_true]
          omega
        · rw [Bool.not_eq_true] at hpi
          rw [hpi]
          simp only [Bool.false_eq_true, if_false]
          omega
      · rw [ihe, hset, exportsView_append,
          exportsView_congr hgetold, List.length_append,
          exportsView_singleton, hgetnew, isExp_ite, List.countP_cons]
        by_cases hpi : provs.contains item = true
        · rw [hpi]
          simp only [Bool.not_true, Bool.false_eq_true, if_false, if_true]
          omega
        · rw [Bool.not_eq_true] at hpi
          rw [hpi]
          simp only [Bool.not_false, Bool.false_eq_true, if_false, if_true]
          omega

/-- C3: constructing a container with providers P and exports X, whose
declared classes have pairwise-distinct tokens, an empty imports list and
an empty process cache, yields a resolutions map with exactly P + X
entries, a providers view with exactly P entries and an exports view with
exactly X entries. -/
theorem claim_C3_resolution_counts (w : World) (f a : Nat) (st : St)
    {obj : ContainerObj} {st1 : St}
    (hcache : st.cache = [])
    (hImp : (w.containerOf a).imports = [])
    (hnd : (((w.containerOf a).providers ++ (w.containerOf a).exports).map
      (fun i => (w.elemOf i).token)).Nodup)
    (hRun : construct w (f + 1) a st = (Except.ok obj, st1)) :
    obj.resolutions.length =
      (w.containerOf a).providers.length + (w.containerOf a).exports.length ∧
    (providersView st1.heap obj.resolutions).length =
      (w.containerOf a).providers.length ∧
    (exportsView st1.heap obj.resolutions).length =
      (w.containerOf a).exports.length := by
  rw [construct_succ, hImp, resolveImportsGo_nil] at hRun
  dsimp only at hRun
  unfold makeResolution at hRun
  have hnone : alookup st.cache ((w.containerOf a).token) = none := by
    rw [hcache]
    rfl
  rw [hnone] at hRun
  dsimp only at hRun
  rcases hloop : resolveLoop w ((w.containerOf a).providers) ((w.containerOf a).exports)
      ((w.containerOf a).reExport)
      ((w.containerOf a).providers ++ (w.containerOf a).exports) [] st
      with ⟨res, st2⟩
  rw [hloop] at hRun
  cases res with
  | error e => simp at hRun
  | ok m2 =>
    dsimp only at hRun
    simp only [Prod.mk.injEq, Except.ok.injEq] at hRun
    obtain ⟨hobj, hst1⟩ := hRun
    obtain ⟨hl, hp, he⟩ := resolveLoop_counts w ((w.containerOf a).providers)
      ((w.containerOf a).exports) ((w.containerOf a).reExport)
      ((w.containerOf a).providers ++ (w.containerOf a).exports) [] st
      hcache (by simpa using hnd) (by intro kv hkv; simp at hkv) hloop
    have hdisj := (List.nodup_append.mp (by simpa [List.map_append] using hnd)).2.2
    have hcnt1 : ((w.containerOf a).providers).countP
        (fun i => ((w.containerOf a).providers).contains i) =
        ((w.containerOf a).providers).length := by
      refine List.countP_eq_length.mpr ?_
      intro x hx
      simpa using hx
    have hcnt2 : ((w.containerOf a).exports).countP
        (fun i => ((w.containerOf a).providers).contains i) = 0 := by
      refine List.countP_eq_zero.mpr ?_
      intro x hx
      have hx2 : x ∉ (w.containerOf a).providers := fun hmem =>
        hdisj (List.mem_map_of_mem _ hmem) (List.mem_map_of_mem _ hx)
      simpa using hx2
    have hcnt3 : ((w.containerOf a).providers).countP
        (fun i => !(((w.containerOf a).providers).contains i)) = 0 := by
      refine List.countP_eq_zero.mpr ?_
      intro x hx
      simpa using hx
    have hcnt4 : ((w.containerOf a).exports).countP
        (fun i => !(((w.containerOf a).providers).contains i)) =
        ((w.containerOf a).exports).length := by
      refine List.countP_eq_length.mpr ?_
      intro x hx
      have hx2 : x ∉ (w.containerOf a).providers := fun hmem =>
        hdisj (List.mem_map_of_mem _ hmem) (List.mem_map_of_mem _ hx)
      simpa using hx2
    refine ⟨?_, ?_, ?_⟩
    · rw [← hobj]
      dsimp only
      rw [hl, List.length_append]
      simp
    · rw [← hobj, ← hst1]
      dsimp only
      rw [hp, List.countP_append, hcnt1, hcnt2]
      simp [providersView]
    · rw [← hobj, ← hst1]
      dsimp only
      rw [he, List.countP_append, hcnt3, hcnt4]
      simp [exportsView]

/-- Witness for C3: container G declares one provider (the adapter D) and
one export (the service S), with distinct tokens P and S; its map has two
entries, one provider and one export. -/
theorem claim_C3_witness :
    objG.resolutions.length =
      (W0.containerOf 5).providers.length + (W0.containerOf 5).exports.length ∧
    (providersView stG.heap objG.resolutions).length =
      (W0.containerOf 5).providers.length ∧
    (exportsView stG.heap objG.resolutions).length =
      (W0.containerOf 5).exports.length :=
  @claim_C3_resolution_counts W0 0 5 st0 objG stG rfl (by decide) (by decide) rfl

/-! ### Claim C7 -/

/-- C7: constructing an Element raises a ContainerError with code
INVALID_ELEMENT exactly when one of the three attributes kind
(`__element__`), token (`__token__`), metadata (`__meta__`) is absent, and
succeeds (returning unit, with no other effect — the model is a pure
function) exactly when all three are present. -/
theorem claim_C7_element_requires_three_attrs (e t m : Bool) :
    (elementInit ⟨e, t, m⟩ = Except.ok () ↔ (e && t && m) = true) ∧
    isInvalidElement (elementInit ⟨e, t, m⟩) = !(e && t && m) := by
  cases e <;> cases t <;> cases m <;>
    simp [elementInit, isInvalidElement]

/-! ### Claim C9 -/

/-- Counterexample to C9: the claim says is_element_or_raise succeeds on a
class carrying kind and token but no metadata, and raises on a class
carrying token and metadata but no kind.  The code does the opposite: it
checks `__meta__` and `__token__` and never consults `__element__`
(container.py lines 388-395), so the first input raises and the second
succeeds. -/
theorem claim_C9_counterexample :
    is_element_or_raise ⟨true, false, true, true⟩ ≠ Except.ok () ∧
    is_element_or_raise ⟨true, true, true, false⟩ = Except.ok () := by
  constructor
  · intro h
    simp [is_element_or_raise] at h
  · rfl

/-- C9 as amended: is_element_or_raise fails for every value that is not a
class, or that lacks the metadata attribute, or that lacks the token
attribute; the kind attribute is not checked at all — the result is
independent of its presence. -/
theorem claim_C9_amended_checks_meta_token (c m t e : Bool) :
    (is_element_or_raise ⟨c, m, t, e⟩ = Except.ok () ↔ (c && m && t) = true) ∧
    is_element_or_raise ⟨c, m, t, e⟩ = is_element_or_raise ⟨c, m, t, !e⟩ := by
  cases c <;> cases m <;> cases t <;>
    simp [is_element_or_raise]

/-! ### Claim C8 -/

/-- C8: the internal dependency lookup scans the declared providers then
exports (their concatenation, in that order) for a class satisfying the
requested type and, on a match with a parameterless constructor,
instantiates that class directly — returning a freshly created instance
(index = current instance-heap length, so a second call creates yet
another one) rather than anything stored in the resolutions map; with no
match it falls back to the map by exact token and returns the stored
instance unchanged; and if that also fails it raises a dependency-not-
found error naming the requested class. -/
theorem claim_C8_get_scan_then_token_fallback (w : World) (provs exps : List Nat)
    (m : List (String × Nat)) (cls : Nat) (st : St) :
    (∀ p, scanSub w cls (provs ++ exps) = some p →
      (w.elemOf p).ctorParams = [] →
      containerGet w provs exps m cls st =
        (Except.ok st.insts.length, { st with insts := st.insts ++ [⟨p, []⟩] }) ∧
      (containerGet w provs exps m cls
        ({ st with insts := st.insts ++ [⟨p, []⟩] })).1 =
        Except.ok (st.insts.length + 1)) ∧
    (∀ r, scanSub w cls (provs ++ exps) = none →
      alookup m ((w.elemOf cls).token) = some r →
      containerGet w provs exps m cls st =
        (Except.ok (heapGet st.heap r).inst, st)) ∧
    (scanSub w cls (provs ++ exps) = none →
      alookup m ((w.elemOf cls).token) = none →
      containerGet w provs exps m cls st =
        (Except.error (Err.keyError
          ("Provider with " ++ (w.elemOf cls).name ++ " not found")), st)) := by
  refine ⟨?_, ?_, ?_⟩
  · intro p hscan hpar
    refine ⟨?_, ?_⟩
    · unfold containerGet
      rw [hscan]
      dsimp only
      rw [if_pos hpar]
    · unfold containerGet
      rw [hscan]
      dsimp only
      rw [if_pos hpar]
      dsimp only
      rw [List.length_append]
      rfl
  · intro r hscan hl
    unfold containerGet
    rw [hscan]
    dsimp only
    rw [hl]
  · intro hscan hl
    unfold containerGet
    rw [hscan]
    dsimp only
    rw [hl]

/-- Witness for C8 at the concrete world: direct ancestry lookup of port P
instantiates the adapter D afresh; token fallback on S returns the stored
instance; and requesting the unimplemented port Q raises KeyError naming
Q. -/
theorem claim_C8_witness :
    (containerGet W0 [1] [] [] 0 st0 =
      (Except.ok 0, ⟨[], [], [⟨1, []⟩]⟩) ∧
     (containerGet W0 [1] [] [] 0 ⟨[], [], [⟨1, []⟩]⟩).1 = Except.ok 1) ∧
    containerGet W0 [] [] [("S", 0)] 2 stB = (Except.ok 0, stB) ∧
    containerGet W0 [5] [] mFImp 4 stFImp =
      (Except.error (Err.keyError "Provider with Q not found"), stFImp) :=
  ⟨(claim_C8_get_scan_then_token_fallback W0 [1] [] [] 0 st0).1 1 rfl rfl,
   (claim_C8_get_scan_then_token_fallback W0 [] [] [("S", 0)] 2 stB).2.1 0 rfl rfl,
   (claim_C8_get_scan_then_token_fallback W0 [5] [] mFImp 4 stFImp).2.2 rfl rfl⟩

/-! ### Claim C10 -/

/-- C10: when the direct-lookup scan matches a declared class, that class
is instantiated with zero constructor arguments: if its constructor has no
parameters a fresh instance with an empty argument list is created (no
dependency resolution happens on this path, unlike `_resolve`); if its
constructor requires parameters, the zero-argument call raises a TypeError
and no instance is created (the state is returned unchanged). -/
theorem claim_C10_direct_lookup_zero_args (w : World) (provs exps : List Nat)
    (m : List (String × Nat)) (cls : Nat) (st : St) (p : Nat)
    (hscan : scanSub w cls (provs ++ exps) = some p) :
    ((w.elemOf p).ctorParams = [] →
      containerGet w provs exps m cls st =
        (Except.ok st.insts.length, { st with insts := st.insts ++ [⟨p, []⟩] })) ∧
    ((w.elemOf p).ctorParams ≠ [] →
      containerGet w provs exps m cls st =
        (Except.error (Err.typeError
          ((w.elemOf p).name ++ " missing required arguments")), st)) := by
  constructor
  · intro hpar
    unfold containerGet
    rw [hscan]
    dsimp only
    rw [if_pos hpar]
  · intro hpar
    unfold containerGet
    rw [hscan]
    dsimp only
    rw [if_neg hpar]

/-- Witness for C10: the parameterless adapter D is created with an empty
argument list; the provider Bad, whose constructor requires a parameter,
makes the direct lookup raise TypeError instead. -/
theorem claim_C10_witness :
    containerGet W0 [1] [] [("P", 0)] 0 st0 =
      (Except.ok 0, ⟨[], [], [⟨1, []⟩]⟩) ∧
    containerGet W0 [5] [] [] 5 st0 =
      (Except.error (Err.typeError "Bad missing required arguments"), st0) :=
  ⟨(claim_C10_direct_lookup_zero_args W0 [1] [] [("P", 0)] 0 st0 1 rfl).1 rfl,
   (claim_C10_direct_lookup_zero_args W0 [5] [] [] 5 st0 5 rfl).2 (by decide)⟩

/-! ### Claim C4 -/

theorem providersView_keys_contains_congr {heap heap' : List Resolution}
    {t : String} :
    ∀ {m : List (String × Nat)},
    (∀ kv ∈ m, kv.1 = t → heapGet heap' kv.2 = heapGet heap kv.2) →
    ((providersView heap' m).map Prod.fst).contains t =
    ((providersView heap m).map Prod.fst).contains t := by
  intro m
  induction m with
  | nil => intro _; rfl
  | cons kv rest ih =>
    intro h
    have hrest := ih (fun q hq he => h q (List.mem_cons_of_mem _ hq) he)
    unfold providersView at hrest ⊢
    by_cases hk : kv.1 = t
    · have hh := h kv (List.mem_cons_self _ _) hk
      cases hp : ((heapGet heap kv.2).type).isProv
      · rw [List.filter_cons_of_neg (by rw [hh]; simp [hp]),
          List.filter_cons_of_neg (by simp [hp])]
        exact hrest
      · rw [List.filter_cons_of_pos (by rw [hh]; simp [hp]),
          List.filter_cons_of_pos (by simp [hp]),
          List.map_cons, List.map_cons, List.contains_cons, List.contains_cons, hrest]
    · have hbt : (t == kv.1) = false := by
        simp only [beq_eq_false_iff_ne, ne_eq]
        exact fun he => hk he.symm
      cases hp2 : ((heapGet heap' kv.2).type).isProv <;>
        cases hp : ((heapGet heap kv.2).type).isProv
      · rw [List.filter_cons_of_neg (by simp [hp2]),
          List.filter_cons_of_neg (by simp [hp])]
        exact hrest
      · rw [List.filter_cons_of_neg (by simp [hp2]),
          List.filter_cons_of_pos (by simp [hp]),
          List.map_cons, List.contains_cons, hbt, Bool.false_or]
        exact hrest
      · rw [List.filter_cons_of_pos (by simp [hp2]),
          List.filter_cons_of_neg (by simp [hp]),
          List.map_cons, List.contains_cons, hbt, Bool.false_or]
        exact hrest
      · rw [List.filter_cons_of_pos (by simp [hp2]),
          List.filter_cons_of_pos (by simp [hp]),
          List.map_cons, List.map_cons, List.contains_cons, List.contains_cons,
          hbt, Bool.false_or, Bool.false_or]
        exact hrest

theorem getProviderAux_congr {heap heap' : List Resolution}
    {cache : List (String × ContainerObj)} {t : String}
    (h : ∀ p ∈ cache, ∀ kv ∈ p.2.resolutions, kv.1 = t →
      heapGet heap' kv.2 = heapGet heap kv.2) :
    getProviderAux heap' cache t = getProviderAux heap cache t := by
  induction cache with
  | nil => rfl
  | cons pc rest ih =>
    obtain ⟨k, c⟩ := pc
    have hcontains : (((providersView heap' c.resolutions).map Prod.fst).contains t) =
        (((providersView heap c.resolutions).map Prod.fst).contains t) :=
      providersView_keys_contains_congr (fun kv hkv he =>
        h (k, c) (List.mem_cons_self _ _) kv hkv he)
    conv_lhs => rw [getProviderAux]
    conv_rhs => rw [getProviderAux]
    rw [hcontains]
    by_cases hc : (((providersView heap c.resolutions).map Prod.fst).contains t) = true
    · rw [if_pos hc, if_pos hc]
    · rw [if_neg hc, if_neg hc]
      exact ih (fun q hq => h q (List.mem_cons_of_mem _ hq))

theorem resolveLoop_append (w : World) (provs exps : List Nat) (re : Bool) :
    ∀ (xs ys : List Nat) (m : List (String × Nat)) (st : St),
    resolveLoop w provs exps re (xs ++ ys) m st =
      (match resolveLoop w provs exps re xs m st with
       | (Except.ok m1, st1) => resolveLoop w provs exps re ys m1 st1
       | (Except.error e, st1) => (Except.error e, st1)) := by
  intro xs
  induction xs with
  | nil => intro ys m st; rfl
  | cons x xs ih =>
    intro ys m st
    rw [List.cons_append]
    rcases hg : getProviderAux st.heap st.cache ((w.elemOf x).token) with _ | r
    · rcases hcr : containerResolve w provs exps m x st with ⟨res, st1⟩
      cases res with
      | error e =>
        rw [resolveLoop_cons_err w provs exps re x (xs ++ ys) m st hg hcr,
          resolveLoop_cons_err w provs exps re x xs m st hg hcr]
      | ok pr =>
        obtain ⟨instRef, deps⟩ := pr
        rw [resolveLoop_cons_miss w provs exps re x (xs ++ ys) m st hg hcr,
          resolveLoop_cons_miss w provs exps re x xs m st hg hcr, ih]
    · rw [resolveLoop_cons_hit w provs exps re x (xs ++ ys) m st hg,
        resolveLoop_cons_hit w provs exps re x xs m st hg, ih]

/-- Running the provider/export loop over items none of whose tokens
equals tD changes neither the cache, nor the outcome of the
cross-container provider lookup for tD, nor the instance/token fields of
any pre-existing heap cell. -/
theorem resolveLoop_stable (w : World) (provs exps : List Nat) (re : Bool)
    (tD : String) :
    ∀ (items : List Nat) (m : List (String × Nat)) (st : St)
      {m1 : List (String × Nat)} {st1 : St},
    CacheWF st.heap st.cache →
    (∀ i ∈ items, (w.elemOf i).token ≠ tD) →
    resolveLoop w provs exps re items m st = (Except.ok m1, st1) →
    CacheWF st1.heap st1.cache ∧
    st1.cache = st.cache ∧
    st.heap.length ≤ st1.heap.length ∧
    getProviderAux st1.heap st1.cache tD = getProviderAux st.heap st.cache tD ∧
    (∀ r1, r1 < st.heap.length →
      (heapGet st1.heap r1).inst = (heapGet st.heap r1).inst ∧
      (heapGet st1.heap r1).token = (heapGet st.heap r1).token) := by
  intro items
  induction items with
  | nil =>
    intro m st m1 st1 hwf _ hrun
    simp only [resolveLoop, Prod.mk.injEq, Except.ok.injEq] at hrun
    obtain ⟨hm, hst⟩ := hrun
    subst hm; subst hst
    exact ⟨hwf, rfl, Nat.le_refl _, rfl, fun r1 _ => ⟨rfl, rfl⟩⟩
  | cons item rest ih =>
    intro m st m1 st1 hwf hni hrun
    have hts : (w.elemOf item).token ≠ tD := hni item (List.mem_cons_self _ _)
    have hni1 : ∀ i ∈ rest, (w.elemOf i).token ≠ tD :=
      fun i hi => hni i (List.mem_cons_of_mem _ hi)
    rcases hg : getProviderAux st.heap st.cache ((w.elemOf item).token) with _ | r
    · rcases hcr : containerResolve w provs exps m item st with ⟨res, st2⟩
      have hfrh := (containerResolve_frame w provs exps m item st).1
      have hfrc := (containerResolve_frame w provs exps m item st).2
      rw [hcr] at hfrh hfrc
      cases res with
      | error e =>
        rw [resolveLoop_cons_err w provs exps re item rest m st hg hcr] at hrun
        simp at hrun
      | ok pr =>
        obtain ⟨instRef, deps⟩ := pr
        rw [resolveLoop_cons_miss w provs exps re item rest m st hg hcr] at hrun
        have hwf2 : CacheWF (st2.heap ++ [(⟨(w.elemOf item).token,
            (if provs.contains item then RType.provider else RType.exported),
            instRef, deps, none, false⟩ : Resolution)]) st2.cache := by
          rw [hfrc, hfrh]
          exact CacheWF_append _ hwf
        have hpt2 : ∀ r1, r1 < st.heap.length →
            heapGet (st2.heap ++ [(⟨(w.elemOf item).token,
              (if provs.contains item then RType.provider else RType.exported),
              instRef, deps, none, false⟩ : Resolution)]) r1 = heapGet st.heap r1 := by
          intro r1 hr1
          rw [← hfrh] at hr1
          rw [heapGet_append_lt hr1, hfrh]
        obtain ⟨ih1, ih2, ih3, ih4, ih5⟩ := ih
          (dictSet m ((w.elemOf item).token) st2.heap.length)
          { st2 with heap := st2.heap ++ [(⟨(w.elemOf item).token,
              (if provs.contains item then RType.provider else RType.exported),
              instRef, deps, none, false⟩ : Resolution)] }
          hwf2 hni1 hrun
        dsimp only at ih2 ih3 ih4 ih5
        refine ⟨ih1, by rw [ih2, hfrc], ?_, ?_, ?_⟩
        · refine Nat.le_trans ?_ ih3
          rw [List.length_append, hfrh]
          exact Nat.le_add_right _ _
        · rw [ih4, hfrc]
          refine getProviderAux_congr ?_
          intro p hp kv hkv _
          obtain ⟨hb, _⟩ := (hwf p (by rw [← hfrc] at hp; rw [hfrc] at hp; exact hp)).2 kv hkv
          exact hpt2 kv.2 hb
        · intro r1 hr1
          have hlt : r1 < st2.heap.length := by rw [hfrh]; exact hr1
          have hlt2 : r1 < (st2.heap ++ [(⟨(w.elemOf item).token,
              (if provs.contains item then RType.provider else RType.exported),
              instRef, deps, none, false⟩ : Resolution)]).length := by
            rw [List.length_append]
            exact Nat.lt_of_lt_of_le hlt (Nat.le_add_right _ _)
          obtain ⟨hi1, hi2⟩ := ih5 r1 hlt2
          rw [hi1, hi2, hpt2 r1 hr1]
          exact ⟨rfl, rfl⟩
    · obtain ⟨hrb, hrt⟩ := getProviderAux_wf hwf hg
      rw [resolveLoop_cons_hit w provs exps re item rest m st hg] at hrun
      have hpt2 : ∀ r1, heapGet (heapSet st.heap r { heapGet st.heap r with
          fromCache := true
          type := if exps.contains item && re then RType.exported
            else RType.provider }) r1 = heapGet st.heap r1 ∨ r1 = r := by
        intro r1
        by_cases he : r1 = r
        · exact Or.inr he
        · exact Or.inl (heapGet_set_ne he _)
      have hwf2 : CacheWF (heapSet st.heap r { heapGet st.heap r with
          fromCache := true
          type := if exps.contains item && re then RType.exported
            else RType.provider }) st.cache := CacheWF_heapSet_keep rfl hwf
      obtain ⟨ih1, ih2, ih3, ih4, ih5⟩ := ih
        (dictSet m ((w.elemOf item).token) r)
        { st with heap := heapSet st.heap r { heapGet st.heap r with
            fromCache := true
            type := if exps.contains item && re then RType.exported
              else RType.provider } }
        hwf2 hni1 hrun
      dsimp only at ih2 ih3 ih4 ih5
      refine ⟨ih1, ih2, ?_, ?_, ?_⟩
      · rw [heapSet_length] at ih3
        exact ih3
      · rw [ih4]
        refine getProviderAux_congr ?_
        intro p hp kv hkv hkt
        obtain ⟨_, htk⟩ := (hwf p hp).2 kv hkv
        have : kv.2 ≠ r := by
          intro he
          rw [he, hrt] at htk
          exact hts (htk.symm ▸ hkt ▸ rfl)
        exact heapGet_set_ne this _
      · intro r1 hr1
        have hlt2 : r1 < (heapSet st.heap r { heapGet st.heap r with
            fromCache := true
            type := if exps.contains item && re then RType.exported
              else RType.provider }).length := by
          rw [heapSet_length]
          exact hr1
        obtain ⟨hi1, hi2⟩ := ih5 r1 hlt2
        rcases hpt2 r1 with hcase | hcase
        · rw [hi1, hi2, hcase]
          exact ⟨rfl, rfl⟩
        · subst hcase
          rw [hi1, hi2, heapGet_set_self hrb]
          exact ⟨rfl, rfl⟩

/-- C4: a container b (no imports, token uncached) that declares among its
providers/exports a class D whose token the cross-container provider
lookup already finds in the cache — found in the cached sibling A, whose
resolutions map holds heap reference r for D's token — ends with exactly
that shared reference r in its own map, and the instance stored in that
resolution is untouched: the second sibling reuses the very same instance
as the first, by way of getProviderAux scanning every cached container's
providers view. -/
theorem claim_C4_sibling_shares_instance (w : World) (f b D : Nat) (st : St)
    (r : Nat) (pre post : List Nat) (A : ContainerObj) (tA : String)
    {obj : ContainerObj} {st1 : St}
    (hwf : CacheWF st.heap st.cache)
    (hImp : (w.containerOf b).imports = [])
    (hbnone : alookup st.cache ((w.containerOf b).token) = none)
    (hsplit : (w.containerOf b).providers ++ (w.containerOf b).exports = pre ++ D :: post)
    (hpre : ∀ i ∈ pre, (w.elemOf i).token ≠ (w.elemOf D).token)
    (hpost : ∀ i ∈ post, (w.elemOf i).token ≠ (w.elemOf D).token)
    (hG : getProviderAux st.heap st.cache ((w.elemOf D).token) = some r)
    (hAcache : alookup st.cache tA = some A)
    (hAr : alookup A.resolutions ((w.elemOf D).token) = some r)
    (hRun : construct w (f + 1) b st = (Except.ok obj, st1)) :
    alookup obj.resolutions ((w.elemOf D).token) =
      alookup A.resolutions ((w.elemOf D).token) ∧
    alookup obj.resolutions ((w.elemOf D).token) = some r ∧
    (heapGet st1.heap r).inst = (heapGet st.heap r).inst := by
  obtain ⟨hrb, hrt⟩ := getProviderAux_wf hwf hG
  rw [construct_succ, hImp, resolveImportsGo_nil] at hRun
  dsimp only at hRun
  unfold makeResolution at hRun
  rw [hbnone] at hRun
  dsimp only at hRun
  rcases hloop : resolveLoop w ((w.containerOf b).providers) ((w.containerOf b).exports)
      ((w.containerOf b).reExport)
      ((w.containerOf b).providers ++ (w.containerOf b).exports) [] st
      with ⟨res, stL⟩
  rw [hloop] at hRun
  cases res with
  | error e => simp at hRun
  | ok mL =>
    dsimp only at hRun
    simp only [Prod.mk.injEq, Except.ok.injEq] at hRun
    obtain ⟨hobj, hst1⟩ := hRun
    rw [hsplit, resolveLoop_append] at hloop
    rcases hprerun : resolveLoop w ((w.containerOf b).providers) ((w.containerOf b).exports)
        ((w.containerOf b).reExport) pre [] st with ⟨res1, stP⟩
    rw [hprerun] at hloop
    cases res1 with
    | error e => simp at hloop
    | ok mP =>
      dsimp only at hloop
      obtain ⟨hwfP, hcaP, hlenP, hgP, hptP⟩ := resolveLoop_stable w
        ((w.containerOf b).providers) ((w.containerOf b).exports)
        ((w.containerOf b).reExport) ((w.elemOf D).token) pre [] st hwf hpre hprerun
      have hgD : getProviderAux stP.heap stP.cache ((w.elemOf D).token) = some r := by
        rw [hgP]
        exact hG
      rw [resolveLoop_cons_hit w ((w.containerOf b).providers) ((w.containerOf b).exports)
        ((w.containerOf b).reExport) D post mP stP hgD] at hloop
      obtain ⟨hrbP, hrtP⟩ := getProviderAux_wf hwfP hgD
      obtain ⟨hiP, htP⟩ := hptP r hrb
      have hfin := resolveLoop_preserve w ((w.containerOf b).providers)
        ((w.containerOf b).exports) ((w.containerOf b).reExport) post
        (dictSet mP ((w.elemOf D).token) r)
        { stP with heap := heapSet stP.heap r { heapGet stP.heap r with
            fromCache := true
            type := if ((w.containerOf b).exports).contains D && ((w.containerOf b).reExport)
              then RType.exported else RType.provider } }
        (by
          dsimp only
          exact CacheWF_heapSet_keep rfl hwfP)
        hpost
        (by
          exact alookup_dictSet_self mP ((w.elemOf D).token) r)
        (by
          dsimp only
          rw [heapSet_length]
          exact hrbP)
        (by
          dsimp only
          rw [heapGet_set_self hrbP]
          exact hrtP)
        hloop
      obtain ⟨hfin1, hfin2⟩ := hfin
      refine ⟨?_, ?_, ?_⟩
      · rw [← hobj]
        dsimp only
        rw [hfin1, hAr]
      · rw [← hobj]
        dsimp only
        exact hfin1
      · rw [← hst1]
        dsimp only
        rw [hfin2]
        dsimp only
        rw [heapGet_set_self hrbP]
        dsimp only
        rw [hiP]

/-- Witness for C4: sibling Sib2, constructed after Sib1 (both declaring
the adapter D with token P), stores in its map the same heap reference
Sib1 holds for P, with the instance unchanged. -/
theorem claim_C4_witness :
    alookup sib2Obj.resolutions ((W0.elemOf 1).token) =
      alookup sib1Obj.resolutions ((W0.elemOf 1).token) ∧
    alookup sib2Obj.resolutions ((W0.elemOf 1).token) = some 0 ∧
    (heapGet stSib2.heap 0).inst = (heapGet stSib1.heap 0).inst :=
  @claim_C4_sibling_shares_instance W0 0 3 1 stSib1 0 [] [] sib1Obj "Sib1"
    sib2Obj stSib2
    (by decide) (by decide) (by decide) (by decide)
    (by intro i hi; exact absurd hi (List.not_mem_nil i))
    (by intro i hi; exact absurd hi (List.not_mem_nil i))
    (by decide) (by decide) (by decide) rfl
